import Mathlib

/-!
Verification of the timestamp resolver of the datetime-helper tool
(src/main.rs).  The core is `get_datetime`, which trims its input, tries
to read it as an RFC 3339 / ISO 8601 datetime, then as a signed 64-bit
epoch count (seconds if the resulting calendar year is below 3000,
otherwise milliseconds), and combines both errors when every attempt
fails.

The Rust code delegates to the chrono crate for calendar work.  The
observable behaviour of those library calls is embedded here explicitly:
the proleptic Gregorian calendar is modelled with the standard
civil-from-days / days-from-civil algorithms (the same epoch-day to
year-month-day bijection chrono implements), chrono's representable
range for `NaiveDateTime` (calendar years -262144 to 262143) gives the
`timestamp_opt` / `timestamp_millis_opt` bounds, and the RFC 3339
scanner mirrors chrono's `parse_from_rfc3339` grammar: four year digits,
two digits for every other field, a 'T'/'t'/' ' separator, an optional
fraction of at least one digit (the first nine significant), a 'Z'/'z'
designator or a signed HH:MM offset, and a leap second `:60` stored as
second 59 with an extra 10^9 nanoseconds.
-/

/-- Unicode white-space code points, the set the Rust `str::trim` removes. -/
def wsChars : List Char :=
  ['\t', '\n', '\u000B', '\u000C', '\r', ' ', '\u0085', ' ', ' ',
   ' ', ' ', ' ', ' ', ' ', ' ', ' ',
   ' ', ' ', ' ', ' ', ' ', ' ', ' ',
   ' ', '　']

/-- Whether a character is white space in the sense of Rust's `char::is_whitespace`. -/
def isWs (c : Char) : Bool := wsChars.contains c

/-- Drop leading white space (the left half of Rust's `str::trim`). -/
def ltrim (l : List Char) : List Char := l.dropWhile isWs

/-- Drop trailing white space (the right half of Rust's `str::trim`). -/
def rtrim (l : List Char) : List Char := (l.reverse.dropWhile isWs).reverse

/-- Rust's `str::trim`: white space removed from both ends. -/
def trim (l : List Char) : List Char := rtrim (ltrim l)

/-- Rust's `str::trim` at the level of whole strings. -/
def trimString (s : String) : String := String.mk (trim s.toList)

/-- Numeric value of an ASCII digit character. -/
def digVal (c : Char) : Nat := c.toNat - 48

/-- ASCII digit character of a value below ten. -/
def digitChar (n : Nat) : Char := Char.ofNat (48 + n)

/-- Correction sum of the civil-from-days algorithm: day of era minus the
century-and-quad leap-day corrections; dividing it by 365 yields the year
of era. -/
def innerSum (doe : Int) : Int :=
  doe - doe.ediv 1460 + doe.ediv 36524 - doe.ediv 146096

/-- Year of era (0 to 399) of a day of era (0 to 146096). -/
def yoeOf (doe : Int) : Int := (innerSum doe).ediv 365

/-- First day of era of a year of era: the number of days in the eras
preceding March 1st of that year. -/
def soy (w : Int) : Int := 365 * w + w.ediv 4 - w.ediv 100 + w.ediv 400

/-- Epoch day number to (year, month, day) in the proleptic Gregorian
calendar, the mapping realised by chrono's `NaiveDate`.  This is the
standard civil-from-days algorithm; divisors are positive so `Int.ediv`
is floor division. -/
def civil_from_days (z : Int) : Int × Int × Int :=
  let zd := z + 719468
  let era := zd.ediv 146097
  let doe := zd - era * 146097
  let yoe := yoeOf doe
  let y := yoe + era * 400
  let doy := doe - (365 * yoe + yoe.ediv 4 - yoe.ediv 100)
  let mp := (5 * doy + 2).ediv 153
  let d := doy - (153 * mp + 2).ediv 5 + 1
  let m := if mp < 10 then mp + 3 else mp - 9
  (if m ≤ 2 then y + 1 else y, m, d)

/-- (year, month, day) to epoch day number in the proleptic Gregorian
calendar, the inverse mapping realised by chrono's `NaiveDate`. -/
def days_from_civil (y m d : Int) : Int :=
  let y2 := if m ≤ 2 then y - 1 else y
  let era := y2.ediv 400
  let yoe := y2 - era * 400
  let doy := (153 * (if 2 < m then m - 3 else m + 9) + 2).ediv 5 + d - 1
  let doe := yoe * 365 + yoe.ediv 4 - yoe.ediv 100 + doy
  era * 146097 + doe - 719468

/-- Length of a month, with the Gregorian leap-year rule (chrono's
month-length table). -/
def days_in_month (y m : Int) : Int :=
  if m = 2 then
    (if y.emod 4 = 0 ∧ (y.emod 100 ≠ 0 ∨ y.emod 400 = 0) then 29 else 28)
  else if m = 4 ∨ m = 6 ∨ m = 9 ∨ m = 11 then 30 else 31

/-- chrono's `DateTime<Utc>`: a UTC instant, kept as whole seconds since
the epoch (floor) plus nonnegative nanoseconds.  A stored leap second
carries 10^9 extra nanoseconds, exactly as chrono represents it. -/
structure DateTimeUtc where
  secs : Int
  nanos : Int
deriving DecidableEq

/-- chrono's `timestamp_millis`: milliseconds since the epoch. -/
def timestamp_millis (t : DateTimeUtc) : Int :=
  t.secs * 1000 + t.nanos.ediv 1000000

/-- Calendar year of an epoch-second count (chrono's `year()` after
`timestamp_opt`). -/
def yearOfSecs (s : Int) : Int := (civil_from_days (s.ediv 86400)).1

/-- Smallest second count representable by chrono (year -262144). -/
def MIN_TS : Int := days_from_civil (-262144) 1 1 * 86400

/-- Largest second count representable by chrono (year 262143). -/
def MAX_TS : Int := days_from_civil 262143 12 31 * 86400 + 86399

/-- chrono's `Utc.timestamp_opt(s, 0)`: `Single` exactly when the second
count lies in the representable range. -/
def timestamp_opt (s : Int) : Option DateTimeUtc :=
  if MIN_TS ≤ s ∧ s ≤ MAX_TS then some ⟨s, 0⟩ else none

/-- chrono's `Utc.timestamp_millis_opt(m)`: the count is split with
Euclidean division into seconds and leftover milliseconds. -/
def timestamp_millis_opt (m : Int) : Option DateTimeUtc :=
  let s := m.ediv 1000
  if MIN_TS ≤ s ∧ s ≤ MAX_TS then some ⟨s, m.emod 1000 * 1000000⟩ else none

/-- Failure kinds of Rust's `i64::from_str` (`ParseIntError`). -/
inductive IntErrorKind
| empty
| invalidDigit
| posOverflow
| negOverflow
deriving DecidableEq

/-- Failure kinds of chrono's RFC 3339 parsing (`ParseError`). -/
inductive ParseErrorKind
| tooShort
| tooLong
| invalid
| outOfRange
deriving DecidableEq

/-- The error enum `DateTimeError` of src/main.rs. -/
inductive DateTimeError
| NumberFormatError (k : IntErrorKind)
| DateFormatError (k : ParseErrorKind)
| InvalidEpochTime (n : Int)
| MultipleErrors (e1 e2 : DateTimeError)
deriving DecidableEq

/-- Digit-accumulation loop of Rust's `i64::from_str`: fails on the first
non-digit, fails with the given overflow kind as soon as the accumulator
leaves the representable magnitude. -/
def parseDigitsLoop (bound : Nat) (ovf : IntErrorKind) :
    Nat → List Char → Except IntErrorKind Nat
| acc, [] => .ok acc
| acc, c :: cs =>
  if c.isDigit then
    if acc * 10 + digVal c > bound then .error ovf
    else parseDigitsLoop bound ovf (acc * 10 + digVal c) cs
  else .error .invalidDigit

/-- Rust's `str::parse::<i64>`: optional sign, one or more ASCII digits,
value within the signed 64-bit range. -/
def parse_i64 (l : List Char) : Except IntErrorKind Int :=
  match l with
  | [] => .error .empty
  | c :: cs =>
    if c = '+' then
      if cs = [] then .error .invalidDigit
      else (parseDigitsLoop (2 ^ 63 - 1) .posOverflow 0 cs).map (fun v => (v : Int))
    else if c = '-' then
      if cs = [] then .error .invalidDigit
      else (parseDigitsLoop (2 ^ 63) .negOverflow 0 cs).map (fun v => -(v : Int))
    else (parseDigitsLoop (2 ^ 63 - 1) .posOverflow 0 (c :: cs)).map (fun v => (v : Int))

/-- Scan exactly two ASCII digits (chrono's `scan::number(s, 2, 2)`). -/
def parse2 : List Char → Except ParseErrorKind (Nat × List Char)
| [] => .error .tooShort
| [c] => if c.isDigit then .error .tooShort else .error .invalid
| c1 :: c2 :: rest =>
  if c1.isDigit then
    if c2.isDigit then .ok (digVal c1 * 10 + digVal c2, rest) else .error .invalid
  else .error .invalid

/-- Scan exactly four ASCII digits (chrono's `scan::number(s, 4, 4)`). -/
def parse4 : List Char → Except ParseErrorKind (Nat × List Char)
| c1 :: c2 :: c3 :: c4 :: rest =>
  if c1.isDigit then
    if c2.isDigit then
      if c3.isDigit then
        if c4.isDigit then
          .ok (digVal c1 * 1000 + digVal c2 * 100 + digVal c3 * 10 + digVal c4, rest)
        else .error .invalid
      else .error .invalid
    else .error .invalid
  else .error .invalid
| l => if l.all Char.isDigit then .error .tooShort else .error .invalid

/-- Demand one specific character. -/
def expectChar (c : Char) : List Char → Except ParseErrorKind (List Char)
| [] => .error .tooShort
| x :: rest => if x = c then .ok rest else .error .invalid

/-- Demand the date/time separator, 'T', 't' or ' ' as chrono accepts. -/
def expectSep : List Char → Except ParseErrorKind (List Char)
| [] => .error .tooShort
| x :: rest => if x = 'T' ∨ x = 't' ∨ x = ' ' then .ok rest else .error .invalid

/-- Value of a list of ASCII digit characters read left to right. -/
def valNat (ds : List Char) : Nat := ds.foldl (fun a c => a * 10 + digVal c) 0

/-- Nanoseconds denoted by the digits of a fraction: the first nine
digits are significant, shorter fractions are scaled up (chrono's
`scan::nanosecond`). -/
def nanoOfDigits (ds : List Char) : Nat :=
  valNat (ds.take 9) * 10 ^ (9 - min ds.length 9)

/-- Optional fractional part: a '.' must be followed by at least one
digit; every following digit is consumed. -/
def parseFraction (l : List Char) : Except ParseErrorKind (Nat × List Char) :=
  match l with
  | [] => .ok (0, [])
  | x :: xs =>
    if x = '.' then
      match xs with
      | [] => .error .tooShort
      | c :: _ =>
        if c.isDigit then
          .ok (nanoOfDigits (xs.takeWhile Char.isDigit), xs.dropWhile Char.isDigit)
        else .error .invalid
    else .ok (0, x :: xs)

/-- Numeric offset body `HH:MM` in seconds; minutes above 59 are out of
range (chrono's `scan::timezone_offset`). -/
def parseOffsetNum (l : List Char) : Except ParseErrorKind (Nat × List Char) := do
  let (hh, r1) ← parse2 l
  let r2 ← expectChar ':' r1
  let (mm, r3) ← parse2 r2
  if 60 ≤ mm then .error .outOfRange
  else .ok (hh * 3600 + mm * 60, r3)

/-- Offset designator: 'Z'/'z' for UTC or a signed `HH:MM`; a total
magnitude of a day or more is rejected (chrono's `FixedOffset`). -/
def parseOffset (l : List Char) : Except ParseErrorKind (Int × List Char) :=
  match l with
  | [] => .error .tooShort
  | x :: rest =>
    if x = 'Z' ∨ x = 'z' then .ok (0, rest)
    else if x = '+' then do
      let (v, r) ← parseOffsetNum rest
      if v < 86400 then .ok ((v : Int), r) else .error .outOfRange
    else if x = '-' then do
      let (v, r) ← parseOffsetNum rest
      if v < 86400 then .ok (-(v : Int), r) else .error .outOfRange
    else .error .invalid

/-- chrono's `DateTime::parse_from_rfc3339` followed by the `.into()`
conversion to `DateTime<Utc>`: the parsed local datetime minus the
offset, as an epoch instant.  Component bounds are the ones chrono's
`Parsed::to_datetime` enforces; a second of 60 is a leap second, stored
on second 59 with 10^9 extra nanoseconds. -/
def parse_rfc3339 (l : List Char) : Except ParseErrorKind DateTimeUtc := do
  let (y, r1) ← parse4 l
  let r2 ← expectChar '-' r1
  let (mo, r3) ← parse2 r2
  let r4 ← expectChar '-' r3
  let (dy, r5) ← parse2 r4
  let r6 ← expectSep r5
  let (hh, r7) ← parse2 r6
  let r8 ← expectChar ':' r7
  let (mi, r9) ← parse2 r8
  let r10 ← expectChar ':' r9
  let (ss, r11) ← parse2 r10
  let (frac, r12) ← parseFraction r11
  let (off, r13) ← parseOffset r12
  if r13 ≠ [] then .error .tooLong
  else if mo < 1 ∨ 12 < mo then .error .outOfRange
  else if dy < 1 ∨ days_in_month (y : Int) (mo : Int) < (dy : Int) then .error .outOfRange
  else if 23 < hh then .error .outOfRange
  else if 59 < mi then .error .outOfRange
  else if 60 < ss then .error .outOfRange
  else
    .ok ⟨days_from_civil (y : Int) (mo : Int) (dy : Int) * 86400
           + (hh : Int) * 3600 + (mi : Int) * 60
           + (if ss = 60 then 59 else (ss : Int)) - off,
         (frac : Int) + (if ss = 60 then 1000000000 else 0)⟩

/-- `iso_to_datetime` of src/main.rs: RFC 3339 parse, error wrapped as
`DateFormatError`. -/
def iso_to_datetime (l : List Char) : Except DateTimeError DateTimeUtc :=
  match parse_rfc3339 l with
  | .ok dt => .ok dt
  | .error k => .error (.DateFormatError k)

/-- `epoch_to_datetime` of src/main.rs: parse a signed 64-bit integer,
prefer the seconds interpretation when it is representable with a
calendar year below 3000, otherwise the milliseconds interpretation,
otherwise fail with `InvalidEpochTime`. -/
def epoch_to_datetime (l : List Char) : Except DateTimeError DateTimeUtc :=
  match parse_i64 l with
  | .error k => .error (.NumberFormatError k)
  | .ok n =>
    match timestamp_opt n, timestamp_millis_opt n with
    | some dt, mopt =>
      if yearOfSecs dt.secs < 3000 then .ok dt
      else
        match mopt with
        | some dt2 => .ok dt2
        | none => .error (.InvalidEpochTime n)
    | none, some dt2 => .ok dt2
    | none, none => .error (.InvalidEpochTime n)

/-- `get_datetime` of src/main.rs, the resolver: trim, try ISO 8601
first, then the epoch interpretation, else combine both errors. -/
def get_datetime (input : String) : Except DateTimeError DateTimeUtc :=
  let trimmed := trim input.toList
  match iso_to_datetime trimmed, epoch_to_datetime trimmed with
  | .ok dt, _ => .ok dt
  | .error _, .ok dt => .ok dt
  | .error e1, .error e2 => .error (.MultipleErrors e1 e2)

/-- Two ASCII digits, zero padded. -/
def pad2 (n : Nat) : List Char := [digitChar (n / 10 % 10), digitChar (n % 10)]

/-- Three ASCII digits, zero padded. -/
def pad3 (n : Nat) : List Char :=
  [digitChar (n / 100 % 10), digitChar (n / 10 % 10), digitChar (n % 10)]

/-- Four ASCII digits, zero padded. -/
def pad4 (n : Nat) : List Char :=
  [digitChar (n / 1000 % 10), digitChar (n / 100 % 10), digitChar (n / 10 % 10),
   digitChar (n % 10)]

/-- Years outside 0..=9999 print with an explicit sign and at least four
digits (chrono writes them with `{:+05}`); chrono's years never exceed
six digits. -/
def expandedYearChars (y : Int) : List Char :=
  let a := y.natAbs
  (if y < 0 then '-' else '+') ::
    (if a < 10000 then pad4 a
     else if a < 100000 then digitChar (a / 10000 % 10) :: pad4 (a % 10000)
     else digitChar (a / 100000 % 10) :: digitChar (a / 10000 % 10) :: pad4 (a % 10000))

/-- chrono's `to_rfc3339_opts(SecondsFormat::Millis, true)` on a UTC
instant, the formatting used by `print_time` in src/main.rs: millisecond
precision, 'Z' suffix, a stored leap second printed as second 60. -/
def to_rfc3339_millis (t : DateTimeUtc) : String :=
  let days := t.secs.ediv 86400
  let sod := t.secs.emod 86400
  let ymd := civil_from_days days
  let ss0 := sod.emod 60
  let ss := if 1000000000 ≤ t.nanos then ss0 + 1 else ss0
  let subn := if 1000000000 ≤ t.nanos then t.nanos - 1000000000 else t.nanos
  let yearChars := if 0 ≤ ymd.1 ∧ ymd.1 ≤ 9999 then pad4 ymd.1.toNat else expandedYearChars ymd.1
  String.mk (yearChars ++ '-' :: pad2 ymd.2.1.toNat ++ '-' :: pad2 ymd.2.2.toNat ++
    'T' :: pad2 (sod.ediv 3600).toNat ++ ':' :: pad2 ((sod.emod 3600).ediv 60).toNat ++
    ':' :: pad2 ss.toNat ++ '.' :: pad3 (subn.ediv 1000000).toNat ++ ['Z'])

/-! ## Helper lemmas -/

deriving instance DecidableEq for Except

theorem get_datetime_of_iso_ok {s : String} {dt : DateTimeUtc}
    (h : iso_to_datetime (trim s.toList) = .ok dt) :
    get_datetime s = .ok dt := by
  simp only [get_datetime, h]

theorem get_datetime_of_iso_err {s : String} {e : DateTimeError}
    (h : iso_to_datetime (trim s.toList) = .error e) :
    get_datetime s = (match epoch_to_datetime (trim s.toList) with
      | .ok dt => .ok dt
      | .error e2 => .error (.MultipleErrors e e2)) := by
  simp only [get_datetime, h]
  cases epoch_to_datetime (trim s.toList) <;> rfl

/-! ## Claims -/

/-- C2: when the trimmed input parses as ISO 8601, `get_datetime` returns
exactly that UTC instant, regardless of any numeric interpretation: ISO
8601 deterministically takes priority. -/
theorem iso_priority (s : String) (dt : DateTimeUtc)
    (h : iso_to_datetime (trim s.toList) = .ok dt) :
    get_datetime s = .ok dt :=
  get_datetime_of_iso_ok h

theorem iso_priority_witness :
    get_datetime "2023-02-16T12:34:56Z" = .ok ⟨1676550896, 0⟩ :=
  iso_priority "2023-02-16T12:34:56Z" ⟨1676550896, 0⟩ (by decide)

/-- C8: resolution is a pure function of the input string: equal inputs
give equal outcomes (same instant or identical error values). -/
theorem resolve_deterministic (s1 s2 : String) (h : s1 = s2) :
    get_datetime s1 = get_datetime s2 := by
  rw [h]

theorem resolve_deterministic_witness :
    get_datetime "1676550896" = get_datetime "1676550896" :=
  resolve_deterministic "1676550896" "1676550896" rfl

/-- C9: every failing resolution surfaces the combined `MultipleErrors`
variant at top level; the other error variants only occur nested inside
it. -/
theorem top_error_always_combined (s : String) (e : DateTimeError)
    (h : get_datetime s = .error e) :
    ∃ e1 e2, e = .MultipleErrors e1 e2 := by
  unfold get_datetime at h
  cases h1 : iso_to_datetime (trim s.toList) with
  | ok dt => simp only [h1] at h; exact absurd h (by simp)
  | error e1 =>
    cases h2 : epoch_to_datetime (trim s.toList) with
    | ok dt => simp only [h1, h2] at h; exact absurd h (by simp)
    | error e2 =>
      simp only [h1, h2, Except.error.injEq] at h
      exact ⟨e1, e2, h.symm⟩

theorem top_error_always_combined_witness :
    ∃ e1 e2, (DateTimeError.MultipleErrors
        (.DateFormatError .invalid) (.NumberFormatError .invalidDigit)) =
      DateTimeError.MultipleErrors e1 e2 :=
  top_error_always_combined "not-a-date" _ (by decide)

/-- C5: the concrete scenarios.  The ISO input resolves to epoch
milliseconds 1676550896789; the ten-digit number resolves as epoch
seconds (its calendar year 2023 is below 3000); the thirteen-digit
number resolves as epoch milliseconds, because its seconds
interpretation, although representable, lands in year 55097 ≥ 3000. -/
theorem concrete_scenarios :
    get_datetime "2023-02-16T12:34:56.789Z" = .ok ⟨1676550896, 789000000⟩
    ∧ timestamp_millis ⟨1676550896, 789000000⟩ = 1676550896789
    ∧ get_datetime "1676550896" = .ok ⟨1676550896, 0⟩
    ∧ timestamp_millis ⟨1676550896, 0⟩ = 1676550896000
    ∧ yearOfSecs 1676550896 = 2023
    ∧ get_datetime "1676550896789" = .ok ⟨1676550896, 789000000⟩
    ∧ 3000 ≤ yearOfSecs 1676550896789 := by
  refine ⟨by decide, by decide, by decide, by decide, by decide, by decide, by decide⟩

theorem epoch_policy (s : String) (n : Int) (e : DateTimeError)
    (hiso : iso_to_datetime (trim s.toList) = .error e)
    (hnum : parse_i64 (trim s.toList) = .ok n) :
    (MIN_TS ≤ n ∧ n ≤ MAX_TS ∧ yearOfSecs n < 3000 →
      get_datetime s = .ok ⟨n, 0⟩)
    ∧ (¬(MIN_TS ≤ n ∧ n ≤ MAX_TS ∧ yearOfSecs n < 3000) →
        MIN_TS ≤ n.ediv 1000 ∧ n.ediv 1000 ≤ MAX_TS →
        get_datetime s = .ok ⟨n.ediv 1000, n.emod 1000 * 1000000⟩)
    ∧ (¬(MIN_TS ≤ n ∧ n ≤ MAX_TS ∧ yearOfSecs n < 3000) →
        ¬(MIN_TS ≤ n.ediv 1000 ∧ n.ediv 1000 ≤ MAX_TS) →
        get_datetime s = .error (.MultipleErrors e (.InvalidEpochTime n))) := by
  rw [get_datetime_of_iso_err hiso]
  refine ⟨fun h1 => ?_, fun h1 h2 => ?_, fun h1 h2 => ?_⟩
  · have : epoch_to_datetime (trim s.toList) = .ok ⟨n, 0⟩ := by
      unfold epoch_to_datetime
      rw [hnum]
      simp only [timestamp_opt, if_pos (And.intro h1.1 h1.2.1)]
      simp only [if_pos h1.2.2]
    rw [this]
  · have hms : timestamp_millis_opt n = some ⟨n.ediv 1000, n.emod 1000 * 1000000⟩ := by
      unfold timestamp_millis_opt
      simp only [if_pos h2]
    have : epoch_to_datetime (trim s.toList) = .ok ⟨n.ediv 1000, n.emod 1000 * 1000000⟩ := by
      unfold epoch_to_datetime
      rw [hnum]
      by_cases hs : MIN_TS ≤ n ∧ n ≤ MAX_TS
      · have hy : ¬ yearOfSecs n < 3000 := fun hy => h1 ⟨hs.1, hs.2, hy⟩
        simp only [timestamp_opt, if_pos hs, hms, if_neg hy]
      · simp only [timestamp_opt, if_neg hs, hms]
    rw [this]
  · have hms : timestamp_millis_opt n = none := by
      unfold timestamp_millis_opt
      simp only [if_neg h2]
    have : epoch_to_datetime (trim s.toList) = .error (.InvalidEpochTime n) := by
      unfold epoch_to_datetime
      rw [hnum]
      by_cases hs : MIN_TS ≤ n ∧ n ≤ MAX_TS
      · have hy : ¬ yearOfSecs n < 3000 := fun hy => h1 ⟨hs.1, hs.2, hy⟩
        simp only [timestamp_opt, if_pos hs, hms, if_neg hy]
      · simp only [timestamp_opt, if_neg hs, hms]
    rw [this]

/-- C1: on inputs where ISO 8601 fails and the trimmed string parses as a
signed 64-bit integer n, the disambiguation policy decides: seconds
interpretation if representable with calendar year below 3000, otherwise
milliseconds interpretation if representable, otherwise the epoch
attempt fails with `InvalidEpochTime n` (surfaced inside the combined
error). -/
theorem epoch_disambiguation_policy (s : String) (n : Int) (e : DateTimeError)
    (hiso : iso_to_datetime (trim s.toList) = .error e)
    (hnum : parse_i64 (trim s.toList) = .ok n) :
    (MIN_TS ≤ n ∧ n ≤ MAX_TS ∧ yearOfSecs n < 3000 →
      get_datetime s = .ok ⟨n, 0⟩)
    ∧ (¬(MIN_TS ≤ n ∧ n ≤ MAX_TS ∧ yearOfSecs n < 3000) →
        MIN_TS ≤ n.ediv 1000 ∧ n.ediv 1000 ≤ MAX_TS →
        get_datetime s = .ok ⟨n.ediv 1000, n.emod 1000 * 1000000⟩)
    ∧ (¬(MIN_TS ≤ n ∧ n ≤ MAX_TS ∧ yearOfSecs n < 3000) →
        ¬(MIN_TS ≤ n.ediv 1000 ∧ n.ediv 1000 ≤ MAX_TS) →
        get_datetime s = .error (.MultipleErrors e (.InvalidEpochTime n))) :=
  epoch_policy s n e hiso hnum

theorem epoch_disambiguation_policy_witness :
    get_datetime "1676550896" = .ok ⟨1676550896, 0⟩
    ∧ get_datetime "1676550896789" = .ok ⟨1676550896, 789000000⟩
    ∧ get_datetime "9223372036854775807" =
        .error (.MultipleErrors (.DateFormatError .invalid)
          (.InvalidEpochTime 9223372036854775807)) := by
  refine ⟨?_, ?_, ?_⟩
  · exact (epoch_disambiguation_policy "1676550896" 1676550896
      (.DateFormatError .invalid) (by decide) (by decide)).1 (by decide)
  · have h := (epoch_disambiguation_policy "1676550896789" 1676550896789
      (.DateFormatError .invalid) (by decide) (by decide)).2.1 (by decide) (by decide)
    rw [h]; decide
  · have h := (epoch_disambiguation_policy "9223372036854775807" 9223372036854775807
      (.DateFormatError .invalid) (by decide) (by decide)).2.2 (by decide) (by decide)
    rw [h]

/-! ## Trim lemmas -/

theorem dropWhile_dropWhile (p : Char → Bool) (l : List Char) :
    List.dropWhile p (List.dropWhile p l) = List.dropWhile p l := by
  induction l with
  | nil => rfl
  | cons c cs ih =>
    by_cases h : p c
    · simp [List.dropWhile_cons, h, ih]
    · simp [List.dropWhile_cons, h]

theorem ltrim_ltrim (l : List Char) : ltrim (ltrim l) = ltrim l :=
  dropWhile_dropWhile isWs l

theorem rtrim_rtrim (l : List Char) : rtrim (rtrim l) = rtrim l := by
  unfold rtrim
  rw [List.reverse_reverse, dropWhile_dropWhile]

theorem dropWhile_head_not (p : Char → Bool) {l : List Char} {c : Char}
    {cs : List Char} (h : List.dropWhile p l = c :: cs) : p c = false := by
  induction l with
  | nil => exact absurd h (by simp)
  | cons a as ih =>
    by_cases ha : p a
    · rw [List.dropWhile_cons, if_pos ha] at h
      exact ih h
    · rw [List.dropWhile_cons, if_neg ha] at h
      cases h
      simpa using ha

theorem dropWhile_append_empty (p : Char → Bool) {l1 : List Char}
    (h : List.dropWhile p l1 = []) (l2 : List Char) :
    List.dropWhile p (l1 ++ l2) = List.dropWhile p l2 := by
  induction l1 with
  | nil => rfl
  | cons a as ih =>
    by_cases ha : p a
    · rw [List.dropWhile_cons, if_pos ha] at h
      rw [List.cons_append, List.dropWhile_cons, if_pos ha]
      exact ih h
    · rw [List.dropWhile_cons, if_neg ha] at h
      exact absurd h (by simp)

theorem dropWhile_append_stop (p : Char → Bool) {l1 : List Char} {x : Char}
    {xs : List Char} (h : List.dropWhile p l1 = x :: xs) (l2 : List Char) :
    List.dropWhile p (l1 ++ l2) = x :: (xs ++ l2) := by
  induction l1 with
  | nil => exact absurd h (by simp)
  | cons a as ih =>
    by_cases ha : p a
    · rw [List.dropWhile_cons, if_pos ha] at h
      rw [List.cons_append, List.dropWhile_cons, if_pos ha]
      exact ih h
    · rw [List.dropWhile_cons, if_neg ha] at h
      rw [List.cons_append, List.dropWhile_cons, if_neg ha]
      cases h
      rfl

theorem rtrim_is_prefixed (l : List Char) : ∃ t, l = rtrim l ++ t := by
  obtain ⟨t, ht⟩ := List.dropWhile_suffix (l := l.reverse) (p := isWs)
  refine ⟨t.reverse, ?_⟩
  have h2 := congrArg List.reverse ht
  rw [List.reverse_append, List.reverse_reverse] at h2
  exact h2.symm

theorem ltrim_of_head_not_ws {c : Char} (cs : List Char) (h : isWs c = false) :
    ltrim (c :: cs) = c :: cs := by
  simp [ltrim, List.dropWhile_cons, h]

theorem ltrim_rtrim_ltrim (l : List Char) :
    ltrim (rtrim (ltrim l)) = rtrim (ltrim l) := by
  cases hl : ltrim l with
  | nil => rfl
  | cons c cs =>
    have hc : isWs c = false := dropWhile_head_not isWs hl
    obtain ⟨t, ht⟩ := rtrim_is_prefixed (c :: cs)
    cases hr : rtrim (c :: cs) with
    | nil => rfl
    | cons x xs =>
      rw [hr, List.cons_append] at ht
      injection ht with hxc hrest
      rw [← hxc]
      exact ltrim_of_head_not_ws xs hc

theorem trim_trim (l : List Char) : trim (trim l) = trim l := by
  unfold trim
  rw [ltrim_rtrim_ltrim, rtrim_rtrim]

theorem ltrim_cons_ws {c : Char} (l : List Char) (h : isWs c = true) :
    ltrim (c :: l) = ltrim l := by
  simp [ltrim, List.dropWhile_cons, h]

theorem rtrim_snoc_ws {c : Char} (l : List Char) (h : isWs c = true) :
    rtrim (l ++ [c]) = rtrim l := by
  unfold rtrim
  rw [List.reverse_append]
  simp [List.dropWhile_cons, h]

theorem trim_cons_ws {c : Char} (l : List Char) (h : isWs c = true) :
    trim (c :: l) = trim l := by
  unfold trim
  rw [ltrim_cons_ws l h]

theorem trim_snoc_ws {c : Char} (l : List Char) (h : isWs c = true) :
    trim (l ++ [c]) = trim l := by
  unfold trim
  cases hl : ltrim l with
  | nil =>
    have h1 : ltrim (l ++ [c]) = [] := by
      unfold ltrim
      rw [dropWhile_append_empty isWs hl]
      simp [List.dropWhile_cons, h]
    rw [h1]
  | cons x xs =>
    have h1 : ltrim (l ++ [c]) = (x :: xs) ++ [c] := by
      unfold ltrim
      rw [dropWhile_append_stop isWs hl]
      rfl
    rw [h1, rtrim_snoc_ws _ h]

theorem trim_allWs (l : List Char) (h : ∀ c ∈ l, isWs c = true) : trim l = [] := by
  have h1 : ltrim l = [] := by
    unfold ltrim
    exact List.dropWhile_eq_nil_iff.mpr h
  unfold trim
  rw [h1]
  rfl

theorem toList_append (a b : String) : (a ++ b).toList = a.toList ++ b.toList := by
  simp [String.toList]

theorem get_datetime_congr {s1 s2 : String}
    (h : trim s1.toList = trim s2.toList) :
    get_datetime s1 = get_datetime s2 := by
  unfold get_datetime
  rw [h]

/-- C4: resolution is invariant under trimming: `get_datetime` of a
string, of its trimmed form, of the string with a space prepended, and
of the string with a space appended all agree. -/
theorem trim_invariance (s : String) :
    get_datetime (trimString s) = get_datetime s
    ∧ get_datetime (" " ++ s) = get_datetime s
    ∧ get_datetime (s ++ " ") = get_datetime s := by
  refine ⟨?_, ?_, ?_⟩
  · exact get_datetime_congr (by
      show trim (trimString s).toList = trim s.toList
      have h1 : (trimString s).toList = trim s.toList := rfl
      rw [h1, trim_trim])
  · exact get_datetime_congr (by
      show trim (" " ++ s).toList = trim s.toList
      rw [toList_append]
      show trim (' ' :: s.toList) = trim s.toList
      exact trim_cons_ws _ (by decide))
  · exact get_datetime_congr (by
      show trim (s ++ " ").toList = trim s.toList
      rw [toList_append]
      show trim (s.toList ++ [' ']) = trim s.toList
      exact trim_snoc_ws _ (by decide))

/-- C3: whenever both interpretations fail on the trimmed input, the
resolver returns the combined error wrapping both failures; in
particular the empty string, every white-space-only string,
"not-a-date" and "abc123" fail that way. -/
theorem combined_error_on_double_failure :
    (∀ (s : String) (e1 e2 : DateTimeError),
      iso_to_datetime (trim s.toList) = .error e1 →
      epoch_to_datetime (trim s.toList) = .error e2 →
      get_datetime s = .error (.MultipleErrors e1 e2))
    ∧ (∀ s : String, (∀ c ∈ s.toList, isWs c = true) →
        get_datetime s = .error (.MultipleErrors (.DateFormatError .tooShort)
          (.NumberFormatError .empty)))
    ∧ get_datetime "" = .error (.MultipleErrors (.DateFormatError .tooShort)
        (.NumberFormatError .empty))
    ∧ get_datetime "not-a-date" = .error (.MultipleErrors (.DateFormatError .invalid)
        (.NumberFormatError .invalidDigit))
    ∧ get_datetime "abc123" = .error (.MultipleErrors (.DateFormatError .invalid)
        (.NumberFormatError .invalidDigit)) := by
  refine ⟨fun s e1 e2 h1 h2 => ?_, fun s h => ?_, by decide, by decide, by decide⟩
  · rw [get_datetime_of_iso_err h1, h2]
  · have htrim : trim s.toList = [] := trim_allWs _ h
    unfold get_datetime
    rw [htrim]
    rfl

theorem combined_error_on_double_failure_witness :
    get_datetime "x!" = .error (.MultipleErrors (.DateFormatError .invalid)
        (.NumberFormatError .invalidDigit))
    ∧ get_datetime " \t " = .error (.MultipleErrors (.DateFormatError .tooShort)
        (.NumberFormatError .empty)) :=
  ⟨combined_error_on_double_failure.1 "x!" _ _ (by decide) (by decide),
   combined_error_on_double_failure.2.1 " \t " (by decide)⟩

/-! ## Calendar lemmas -/

theorem ediv_spec (x : Int) (k : Int) (hk : 0 < k) :
    k * (x.ediv k) + x.emod k = x ∧ 0 ≤ x.emod k ∧ x.emod k < k :=
  ⟨Int.ediv_add_emod x k, Int.emod_nonneg x (by omega), Int.emod_lt_of_pos x hk⟩

theorem innerSum_step (d : Int) (h0 : 0 ≤ d) (h1 : d ≤ 146095) :
    innerSum d ≤ innerSum (d + 1) := by
  unfold innerSum
  have a1 := ediv_spec d 1460 (by norm_num)
  have a2 := ediv_spec d 36524 (by norm_num)
  have a3 := ediv_spec d 146096 (by norm_num)
  have b1 := ediv_spec (d + 1) 1460 (by norm_num)
  have b2 := ediv_spec (d + 1) 36524 (by norm_num)
  have b3 := ediv_spec (d + 1) 146096 (by norm_num)
  omega

theorem innerSum_mono_aux : ∀ (k : Nat) (a : Int), 0 ≤ a → a + k ≤ 146096 →
    innerSum a ≤ innerSum (a + k) := by
  intro k
  induction k with
  | zero => intro a _ _; simp
  | succ n ih =>
    intro a ha hb
    have hb2 : a + (n : Int) + 1 ≤ 146096 := by push_cast at hb; omega
    have h1 : innerSum a ≤ innerSum (a + n) := ih a ha (by omega)
    have h2 : innerSum (a + n) ≤ innerSum (a + n + 1) :=
      innerSum_step (a + n) (by have := Int.natCast_nonneg n; omega) (by omega)
    have h4 : a + ((n + 1 : Nat) : Int) = a + n + 1 := by push_cast; ring
    rw [h4]
    omega

theorem yoeOf_mono (a b : Int) (h0 : 0 ≤ a) (hab : a ≤ b) (hb : b ≤ 146096) :
    yoeOf a ≤ yoeOf b := by
  have h1 : innerSum a ≤ innerSum b := by
    have := innerSum_mono_aux (b - a).toNat a h0 (by omega)
    rwa [Int.toNat_of_nonneg (by omega), add_sub_cancel] at this
  exact Int.ediv_le_ediv (by norm_num) h1

set_option maxRecDepth 4000 in
theorem yoe_endpoint_table : ∀ w : Nat, w < 400 →
    yoeOf (soy w) = w ∧ yoeOf (soy (w + 1) - 1) = w := by decide

theorem soy_bound (w : Int) (h0 : 0 ≤ w) (h1 : w ≤ 400) :
    0 ≤ soy w ∧ soy w ≤ 146097 := by
  unfold soy
  have a1 := ediv_spec w 4 (by norm_num)
  have a2 := ediv_spec w 100 (by norm_num)
  have a3 := ediv_spec w 400 (by norm_num)
  omega

theorem yoe_bracket (doe : Int) (h0 : 0 ≤ doe) (h1 : doe < 146097) :
    0 ≤ yoeOf doe ∧ yoeOf doe ≤ 399 ∧
    soy (yoeOf doe) ≤ doe ∧ doe < soy (yoeOf doe + 1) := by
  have hlo : yoeOf 0 ≤ yoeOf doe := yoeOf_mono 0 doe le_rfl h0 (by omega)
  have hhi : yoeOf doe ≤ yoeOf 146096 := yoeOf_mono doe 146096 h0 (by omega) le_rfl
  have h0v : yoeOf 0 = 0 := by decide
  have h399 : yoeOf 146096 = 399 := by decide
  have hw0 : 0 ≤ yoeOf doe := by omega
  have hw399 : yoeOf doe ≤ 399 := by omega
  refine ⟨hw0, hw399, ?_, ?_⟩
  · by_contra hc
    push_neg at hc
    have hw1 : 1 ≤ yoeOf doe := by
      by_contra hz
      push_neg at hz
      have : yoeOf doe = 0 := by omega
      rw [this] at hc
      have : soy 0 = 0 := by decide
      omega
    set w := yoeOf doe with hw
    have htab := yoe_endpoint_table (w - 1).toNat (by omega)
    have hcast1 : ((w - 1).toNat : Int) = w - 1 := Int.toNat_of_nonneg (by omega)
    have htab2 : yoeOf (soy w - 1) = w - 1 := by
      have h5 := htab.2
      rw [hcast1] at h5
      rw [show w - 1 + 1 = w from by ring] at h5
      exact h5
    have hbnd := soy_bound w (by omega) (by omega)
    have hmono := yoeOf_mono doe (soy w - 1) h0 (by omega) (by omega)
    omega
  · by_cases hw : yoeOf doe = 399
    · rw [hw]
      have h400 : soy (399 + 1) = 146097 := by decide
      omega
    · by_contra hc
      push_neg at hc
      set w := yoeOf doe with hwdef
      have htab := yoe_endpoint_table (w + 1).toNat (by omega)
      have hcast1 : ((w + 1).toNat : Int) = w + 1 := Int.toNat_of_nonneg (by omega)
      have htab2 : yoeOf (soy (w + 1)) = w + 1 := by
        have := htab.1
        rw [hcast1] at this
        exact this
      have hbnd := soy_bound (w + 1) (by omega) (by omega)
      have hmono := yoeOf_mono (soy (w + 1)) doe hbnd.1 hc (by omega)
      omega

theorem emod_shift4 (a e : Int) : (a + 400 * e).emod 4 = a.emod 4 := by
  have h1 := ediv_spec (a + 400 * e) 4 (by norm_num)
  have h2 := ediv_spec a 4 (by norm_num)
  omega

theorem emod_shift100 (a e : Int) : (a + 400 * e).emod 100 = a.emod 100 := by
  have h1 := ediv_spec (a + 400 * e) 100 (by norm_num)
  have h2 := ediv_spec a 100 (by norm_num)
  omega

theorem emod_shift400 (a e : Int) : (a + 400 * e).emod 400 = a.emod 400 := by
  have h1 := ediv_spec (a + 400 * e) 400 (by norm_num)
  have h2 := ediv_spec a 400 (by norm_num)
  omega

theorem doy_bounds_core (yoe q5 q6 q400 q54 q104 q404 r5 r6 r400 r54 r104 r404 doe doy : Int)
    (hc1a : 4 * q5 + r5 = yoe) (hc1b : 0 ≤ r5) (hc1c : r5 < 4)
    (hc2a : 100 * q6 + r6 = yoe) (hc2b : 0 ≤ r6) (hc2c : r6 < 100)
    (hc3a : 400 * q400 + r400 = yoe) (hc3b : 0 ≤ r400) (hc3c : r400 < 400)
    (hc4a : 4 * q54 + r54 = yoe + 1) (hc4b : 0 ≤ r54) (hc4c : r54 < 4)
    (hc5a : 100 * q104 + r104 = yoe + 1) (hc5b : 0 ≤ r104) (hc5c : r104 < 100)
    (hc6a : 400 * q404 + r404 = yoe + 1) (hc6b : 0 ≤ r404) (hc6c : r404 < 400)
    (hyoe0 : 0 ≤ yoe) (hyoe399 : yoe ≤ 399)
    (hlo : 365 * yoe + q5 - q6 + q400 ≤ doe)
    (hhi : doe < 365 * (yoe + 1) + q54 - q104 + q404)
    (hdoy : doe - (365 * yoe + q5 - q6) = doy) :
    (r54 = 0 ∧ (r104 ≠ 0 ∨ r404 = 0) → doy ≤ 365)
    ∧ (¬(r54 = 0 ∧ (r104 ≠ 0 ∨ r404 = 0)) → doy ≤ 364)
    ∧ 0 ≤ doy ∧ doy ≤ 365 := by
  have k2 : doy < 365 + (q54 - q5) - (q104 - q6) + q404 := by omega
  have k3 : q5 ≤ q54 ∧ q54 ≤ q5 + 1 := by omega
  have k4 : q6 ≤ q104 ∧ q104 ≤ q6 + 1 := by omega
  have k5 : 0 ≤ q404 ∧ q404 ≤ 1 := by omega
  have k1 : q404 = 1 → q104 = q6 + 1 := by omega
  have klo : 0 ≤ doy := by omega
  have khi : doy ≤ 365 := by
    have knl : q54 = q5 ∨ r54 = 0 := by omega
    rcases knl with h | h
    · omega
    · omega
  refine ⟨fun hleap => khi, fun hnl => ?_, klo, khi⟩
  have knl : q54 = q5 ∨ (r104 = 0 ∧ r404 ≠ 0) := by omega
  rcases knl with h | ⟨ha, hb⟩
  · omega
  · have k6 : q104 = q6 + 1 := by omega
    have k7 : q404 = 0 := by omega
    omega

set_option maxHeartbeats 3200000 in
theorem civil_rt (z : Int) :
    1 ≤ (civil_from_days z).2.1 ∧ (civil_from_days z).2.1 ≤ 12 ∧
    1 ≤ (civil_from_days z).2.2 ∧
    (civil_from_days z).2.2 ≤ days_in_month (civil_from_days z).1 (civil_from_days z).2.1 ∧
    days_from_civil (civil_from_days z).1 (civil_from_days z).2.1 (civil_from_days z).2.2 = z := by
  have s1 := ediv_spec (z + 719468) 146097 (by norm_num)
  simp only [civil_from_days, days_from_civil, days_in_month]
  obtain ⟨era, hera⟩ : ∃ w, (z + 719468).ediv 146097 = w := ⟨_, rfl⟩
  simp only [hera] at s1 ⊢
  obtain ⟨doe, hdoe⟩ : ∃ w, z + 719468 - era * 146097 = w := ⟨_, rfl⟩
  simp only [hdoe]
  have hdoe0 : 0 ≤ doe ∧ doe < 146097 := by omega
  have br := yoe_bracket doe hdoe0.1 hdoe0.2
  obtain ⟨yoe, hyoe⟩ : ∃ w, yoeOf doe = w := ⟨_, rfl⟩
  simp only [hyoe] at br ⊢
  have c1 := ediv_spec yoe 4 (by norm_num)
  have c2 := ediv_spec yoe 100 (by norm_num)
  have c3 := ediv_spec yoe 400 (by norm_num)
  have c4 := ediv_spec (yoe + 1) 4 (by norm_num)
  have c5 := ediv_spec (yoe + 1) 100 (by norm_num)
  have c6 := ediv_spec (yoe + 1) 400 (by norm_num)
  have hs_lo : soy yoe = 365 * yoe + yoe.ediv 4 - yoe.ediv 100 + yoe.ediv 400 := rfl
  have hs_hi : soy (yoe + 1) =
      365 * (yoe + 1) + (yoe + 1).ediv 4 - (yoe + 1).ediv 100 + (yoe + 1).ediv 400 := rfl
  rw [hs_lo, hs_hi] at br
  obtain ⟨doy, hdoy⟩ : ∃ w, doe - (365 * yoe + yoe.ediv 4 - yoe.ediv 100) = w := ⟨_, rfl⟩
  simp only [hdoy]
  have dleap := doy_bounds_core yoe (yoe.ediv 4) (yoe.ediv 100) (yoe.ediv 400)
    ((yoe + 1).ediv 4) ((yoe + 1).ediv 100) ((yoe + 1).ediv 400)
    (yoe.emod 4) (yoe.emod 100) (yoe.emod 400)
    ((yoe + 1).emod 4) ((yoe + 1).emod 100) ((yoe + 1).emod 400) doe doy
    c1.1 c1.2.1 c1.2.2 c2.1 c2.2.1 c2.2.2 c3.1 c3.2.1 c3.2.2
    c4.1 c4.2.1 c4.2.2 c5.1 c5.2.1 c5.2.2 c6.1 c6.2.1 c6.2.2
    br.1 br.2.1 br.2.2.1 br.2.2.2 hdoy
  have s8 := ediv_spec (5 * doy + 2) 153 (by norm_num)
  obtain ⟨mp, hmp⟩ : ∃ w, (5 * doy + 2).ediv 153 = w := ⟨_, rfl⟩
  simp only [hmp] at s8 ⊢
  have s9 := ediv_spec (153 * mp + 2) 5 (by norm_num)
  obtain ⟨q7, hq7⟩ : ∃ w, (153 * mp + 2).ediv 5 = w := ⟨_, rfl⟩
  simp only [hq7] at s9 ⊢
  obtain ⟨y, hy⟩ : ∃ w, yoe + era * 400 = w := ⟨_, rfl⟩
  simp only [hy]
  have hyplus : y + 1 = (yoe + 1) + 400 * era := by linarith [hy]
  have tr4 : (y + 1).emod 4 = (yoe + 1).emod 4 := by rw [hyplus]; exact emod_shift4 _ _
  have tr100 : (y + 1).emod 100 = (yoe + 1).emod 100 := by rw [hyplus]; exact emod_shift100 _ _
  have tr400 : (y + 1).emod 400 = (yoe + 1).emod 400 := by rw [hyplus]; exact emod_shift400 _ _
  have hmprange : 0 ≤ mp ∧ mp ≤ 11 := by omega
  have m6 := ediv_spec y 400 (by norm_num)
  clear hs_lo hs_hi hyoe hera hyplus c1 c2 c3 c4 c5 c6
  refine ⟨?_, ?_, ?_, ?_, ?_⟩
  · split_ifs <;> omega
  · split_ifs <;> omega
  · omega
  · split_ifs <;> omega
  · split_ifs
    · omega
    · omega
    · rw [show mp + 3 - 3 = mp from by ring, hq7]
      have hyoe2 : y - y.ediv 400 * 400 = yoe := by omega
      rw [hyoe2]
      omega
    · omega
    · omega
    · rw [show y + 1 - 1 = y from by ring, show mp - 9 + 9 = mp from by ring, hq7]
      have hyoe2 : y - y.ediv 400 * 400 = yoe := by omega
      rw [hyoe2]
      omega
    · omega
    · omega

/-! ## Integer inputs never parse as ISO 8601 -/

theorem parseDigitsLoop_all_digits {bound : Nat} {ovf : IntErrorKind} :
    ∀ (acc : Nat) (ds : List Char) (v : Nat),
    parseDigitsLoop bound ovf acc ds = .ok v → ∀ c ∈ ds, c.isDigit = true := by
  intro acc ds
  induction ds generalizing acc with
  | nil => intro v _ c hc; simp at hc
  | cons x xs ih =>
    intro v h c hc
    simp only [parseDigitsLoop] at h
    by_cases hx : x.isDigit
    · rw [if_pos hx] at h
      by_cases hb : acc * 10 + digVal x > bound
      · rw [if_pos hb] at h
        exact absurd h (by simp)
      · rw [if_neg hb] at h
        rcases List.mem_cons.mp hc with rfl | hmem
        · exact hx
        · exact ih _ _ h c hmem
    · rw [if_neg hx] at h
      exact absurd h (by simp)

theorem parse_i64_shape {l : List Char} {n : Int} (h : parse_i64 l = .ok n) :
    ∃ c cs, l = c :: cs ∧
      ((c = '+' ∨ c = '-') ∧ (∀ x ∈ cs, x.isDigit = true)
        ∨ (∀ x ∈ c :: cs, x.isDigit = true)) := by
  cases l with
  | nil => exact absurd h (by simp [parse_i64])
  | cons c cs =>
    refine ⟨c, cs, rfl, ?_⟩
    by_cases hp : c = '+'
    · subst hp
      simp only [parse_i64, if_pos rfl] at h
      by_cases hcs : cs = []
      · rw [if_pos hcs] at h
        exact absurd h (by simp)
      · rw [if_neg hcs] at h
        cases hloop : parseDigitsLoop (2 ^ 63 - 1) .posOverflow 0 cs with
        | error e => rw [hloop] at h; exact absurd h (by simp [Except.map])
        | ok v =>
          exact Or.inl ⟨Or.inl rfl, parseDigitsLoop_all_digits 0 cs v hloop⟩
    · by_cases hm : c = '-'
      · subst hm
        simp only [parse_i64, if_pos rfl] at h
        rw [if_neg (by simp)] at h
        by_cases hcs : cs = []
        · rw [if_pos hcs] at h
          exact absurd h (by simp)
        · rw [if_neg hcs] at h
          cases hloop : parseDigitsLoop (2 ^ 63) .negOverflow 0 cs with
          | error e => rw [hloop] at h; exact absurd h (by simp [Except.map])
          | ok v =>
            exact Or.inl ⟨Or.inr rfl, parseDigitsLoop_all_digits 0 cs v hloop⟩
      · simp only [parse_i64, if_neg hp, if_neg hm] at h
        cases hloop : parseDigitsLoop (2 ^ 63 - 1) .posOverflow 0 (c :: cs) with
        | error e => rw [hloop] at h; exact absurd h (by simp [Except.map])
        | ok v =>
          exact Or.inr (parseDigitsLoop_all_digits 0 (c :: cs) v hloop)

theorem parse4_err_of_head {c : Char} (cs : List Char) (hc : c.isDigit = false) :
    parse4 (c :: cs) = .error .invalid := by
  rcases cs with _ | ⟨c2, _ | ⟨c3, _ | ⟨c4, rest⟩⟩⟩ <;> simp [parse4, hc]

theorem rfc3339_err_of_parse4 {l : List Char} {k : ParseErrorKind}
    (h : parse4 l = .error k) : parse_rfc3339 l = .error k := by
  simp [parse_rfc3339, h, Bind.bind, Except.bind]

theorem isDigit_ne_dash {c : Char} (h : c.isDigit = true) : ¬(c = '-') := by
  intro he
  subst he
  exact absurd h (by decide)

theorem rfc3339_fails_of_digits {l : List Char} (h : ∀ x ∈ l, x.isDigit = true) :
    ∃ k, parse_rfc3339 l = .error k := by
  rcases l with _ | ⟨c1, _ | ⟨c2, _ | ⟨c3, _ | ⟨c4, _ | ⟨c5, rest⟩⟩⟩⟩⟩
  · exact ⟨.tooShort, by simp [parse_rfc3339, parse4, Bind.bind, Except.bind]⟩
  · exact ⟨.tooShort, by
      simp [parse_rfc3339, parse4, h c1 (by simp), Bind.bind, Except.bind]⟩
  · exact ⟨.tooShort, by
      simp [parse_rfc3339, parse4, h c1 (by simp), h c2 (by simp), Bind.bind, Except.bind]⟩
  · exact ⟨.tooShort, by
      simp [parse_rfc3339, parse4, h c1 (by simp), h c2 (by simp), h c3 (by simp),
        Bind.bind, Except.bind]⟩
  · exact ⟨.tooShort, by
      simp [parse_rfc3339, parse4, h c1 (by simp), h c2 (by simp), h c3 (by simp),
        h c4 (by simp), expectChar, Bind.bind, Except.bind]⟩
  · refine ⟨.invalid, ?_⟩
    have h5 : c5.isDigit = true := h c5 (by simp)
    simp [parse_rfc3339, parse4, h c1 (by simp), h c2 (by simp), h c3 (by simp),
      h c4 (by simp), expectChar, if_neg (isDigit_ne_dash h5), Bind.bind, Except.bind]

theorem rfc3339_fails_of_int {l : List Char} {n : Int} (h : parse_i64 l = .ok n) :
    ∃ k, parse_rfc3339 l = .error k := by
  obtain ⟨c, cs, rfl, hshape⟩ := parse_i64_shape h
  rcases hshape with ⟨hsign, _⟩ | hdig
  · refine ⟨.invalid, rfc3339_err_of_parse4 (parse4_err_of_head cs ?_)⟩
    rcases hsign with rfl | rfl <;> decide
  · exact rfc3339_fails_of_digits hdig

theorem civil_year_neg (z : Int) (hz : z < 0) : (civil_from_days z).1 < 3000 := by
  have s1 := ediv_spec (z + 719468) 146097 (by norm_num)
  simp only [civil_from_days]
  obtain ⟨era, hera⟩ : ∃ w, (z + 719468).ediv 146097 = w := ⟨_, rfl⟩
  simp only [hera] at s1 ⊢
  obtain ⟨doe, hdoe⟩ : ∃ w, z + 719468 - era * 146097 = w := ⟨_, rfl⟩
  simp only [hdoe]
  have hdoe0 : 0 ≤ doe ∧ doe < 146097 := by omega
  have br := yoe_bracket doe hdoe0.1 hdoe0.2
  obtain ⟨yoe, hyoe⟩ : ∃ w, yoeOf doe = w := ⟨_, rfl⟩
  simp only [hyoe] at br ⊢
  split_ifs <;> omega

theorem yearOfSecs_neg (n : Int) (hn : n < 0) : yearOfSecs n < 3000 := by
  unfold yearOfSecs
  have hd := ediv_spec n 86400 (by norm_num)
  exact civil_year_neg _ (by omega)

/-- C10: the year-3000 heuristic is one-sided: every representable
negative epoch input resolves as seconds (pre-1970 years are always
below 3000), so the milliseconds interpretation is never chosen for
negative values. -/
theorem negative_epoch_prefers_seconds (s : String) (n : Int)
    (hnum : parse_i64 (trim s.toList) = .ok n) (hneg : n < 0) (hrep : MIN_TS ≤ n) :
    get_datetime s = .ok ⟨n, 0⟩ := by
  obtain ⟨k, hk⟩ := rfc3339_fails_of_int hnum
  have hiso : iso_to_datetime (trim s.toList) = .error (.DateFormatError k) := by
    unfold iso_to_datetime
    rw [hk]
  refine (epoch_policy s n _ hiso hnum).1 ⟨hrep, ?_, yearOfSecs_neg n hneg⟩
  have hmax : (0 : Int) ≤ MAX_TS := by decide
  omega

theorem negative_epoch_prefers_seconds_witness :
    get_datetime "-86400" = .ok ⟨-86400, 0⟩ :=
  negative_epoch_prefers_seconds "-86400" (-86400) (by decide) (by decide) (by decide)

/-! ## Valid ISO 8601 strings carry no surrounding white space -/

theorem ws_not_digit {c : Char} (h : isWs c = true) : c.isDigit = false := by
  have hm : c ∈ wsChars := by simpa [isWs] using h
  fin_cases hm <;> decide

theorem digit_not_ws {c : Char} (h : c.isDigit = true) : isWs c = false := by
  cases hw : isWs c with
  | false => rfl
  | true => exact absurd h (by simp [ws_not_digit hw])

theorem rtrim_snoc_not_ws {c : Char} (l : List Char) (h : isWs c = false) :
    rtrim (l ++ [c]) = l ++ [c] := by
  unfold rtrim
  rw [List.reverse_append]
  simp [List.dropWhile_cons, h]

theorem trim_eq_self {l : List Char}
    (h1 : ∃ c cs, l = c :: cs ∧ isWs c = false)
    (h2 : ∃ a c, l = a ++ [c] ∧ isWs c = false) : trim l = l := by
  obtain ⟨c, cs, rfl, hc⟩ := h1
  obtain ⟨a, c2, heq, hc2⟩ := h2
  unfold trim
  rw [ltrim_of_head_not_ws cs hc, heq]
  exact rtrim_snoc_not_ws a hc2

theorem except_bind_ok {α β : Type} {E : Type} {x : Except E α} {f : α → Except E β}
    {b : β} (h : (x >>= f) = .ok b) : ∃ a, x = .ok a ∧ f a = .ok b := by
  cases x with
  | error e => exact absurd h (by simp [Bind.bind, Except.bind])
  | ok a => exact ⟨a, rfl, by simpa [Bind.bind, Except.bind] using h⟩

theorem parse2_ok_decomp {l : List Char} {v : Nat} {r : List Char}
    (h : parse2 l = .ok (v, r)) :
    ∃ a b, l = a :: b :: r ∧ a.isDigit = true ∧ b.isDigit = true := by
  rcases l with _ | ⟨a, _ | ⟨b, rest⟩⟩
  · exact absurd h (by simp [parse2])
  · exact absurd h (by by_cases hd : a.isDigit <;> simp [parse2, hd])
  · by_cases h1 : a.isDigit
    · by_cases h2 : b.isDigit
      · simp only [parse2, h1, h2, if_true, Except.ok.injEq, Prod.mk.injEq] at h
        exact ⟨a, b, by rw [h.2], h1, h2⟩
      · exact absurd h (by simp [parse2, h1, h2])
    · exact absurd h (by simp [parse2, h1])

theorem parse4_ok_decomp {l : List Char} {v : Nat} {r : List Char}
    (h : parse4 l = .ok (v, r)) :
    ∃ a b c d, l = a :: b :: c :: d :: r ∧ a.isDigit = true := by
  rcases l with _ | ⟨a, _ | ⟨b, _ | ⟨c, _ | ⟨d, rest⟩⟩⟩⟩
  · exact absurd h (by simp [parse4])
  · exact absurd h (by by_cases h1 : a.isDigit <;> simp [parse4, h1])
  · exact absurd h (by
      by_cases h1 : a.isDigit <;> by_cases h2 : b.isDigit <;> simp [parse4, h1, h2])
  · exact absurd h (by
      by_cases h1 : a.isDigit <;> by_cases h2 : b.isDigit <;> by_cases h3 : c.isDigit <;>
        simp [parse4, h1, h2, h3])
  · by_cases h1 : a.isDigit
    · by_cases h2 : b.isDigit
      · by_cases h3 : c.isDigit
        · by_cases h4 : d.isDigit
          · simp only [parse4, h1, h2, h3, h4, if_true, Except.ok.injEq, Prod.mk.injEq] at h
            exact ⟨a, b, c, d, by rw [h.2], h1⟩
          · exact absurd h (by simp [parse4, h1, h2, h3, h4])
        · exact absurd h (by simp [parse4, h1, h2, h3])
      · exact absurd h (by simp [parse4, h1, h2])
    · exact absurd h (by simp [parse4, h1])

theorem expectChar_ok {c : Char} {l r : List Char} (h : expectChar c l = .ok r) :
    l = c :: r := by
  rcases l with _ | ⟨x, xs⟩
  · exact absurd h (by simp [expectChar])
  · by_cases hx : x = c
    · subst hx
      simp [expectChar] at h
      rw [h]
    · exact absurd h (by simp [expectChar, hx])

theorem expectSep_ok {l r : List Char} (h : expectSep l = .ok r) :
    ∃ x, l = x :: r := by
  rcases l with _ | ⟨x, xs⟩
  · exact absurd h (by simp [expectSep])
  · by_cases hx : x = 'T' ∨ x = 't' ∨ x = ' '
    · simp only [expectSep, if_pos hx, Except.ok.injEq] at h
      exact ⟨x, by rw [h]⟩
    · exact absurd h (by simp [expectSep, hx])

theorem parseFraction_ok {l : List Char} {v : Nat} {r : List Char}
    (h : parseFraction l = .ok (v, r)) : ∃ p, l = p ++ r := by
  rcases l with _ | ⟨x, xs⟩
  · simp only [parseFraction, Except.ok.injEq, Prod.mk.injEq] at h
    exact ⟨[], by rw [← h.2]; rfl⟩
  · by_cases hx : x = '.'
    · subst hx
      rcases xs with _ | ⟨c2, rest2⟩
      · exact absurd h (by simp [parseFraction])
      · by_cases hc : c2.isDigit
        · simp [parseFraction, hc] at h
          refine ⟨'.' :: (c2 :: rest2).takeWhile Char.isDigit, ?_⟩
          rw [← h.2]
          simp [List.takeWhile_cons, hc, List.takeWhile_append_dropWhile]
        · exact absurd h (by simp [parseFraction, hc])
    · simp only [parseFraction, if_neg hx, Except.ok.injEq, Prod.mk.injEq] at h
      exact ⟨[], by rw [← h.2]; rfl⟩

theorem parseOffsetNum_ok {l : List Char} {v : Nat} {r : List Char}
    (h : parseOffsetNum l = .ok (v, r)) :
    ∃ h1 h2 m1 m2, l = h1 :: h2 :: ':' :: m1 :: m2 :: r ∧ m2.isDigit = true := by
  unfold parseOffsetNum at h
  obtain ⟨⟨hh, r1⟩, hp1, h⟩ := except_bind_ok h
  obtain ⟨r2, hp2, h⟩ := except_bind_ok h
  obtain ⟨⟨mm, r3⟩, hp3, h⟩ := except_bind_ok h
  dsimp only at h
  have hr3 : r3 = r := by
    by_cases hb : 60 ≤ mm
    · rw [if_pos hb] at h
      exact absurd h (by simp)
    · rw [if_neg hb] at h
      simp only [Except.ok.injEq, Prod.mk.injEq] at h
      exact h.2
  obtain ⟨a, b, hl1, _, _⟩ := parse2_ok_decomp hp1
  have hl2 := expectChar_ok hp2
  obtain ⟨c, d, hl3, _, hd⟩ := parse2_ok_decomp hp3
  subst hr3
  rw [hl1, hl2, hl3]
  exact ⟨a, b, c, d, rfl, hd⟩

theorem parseOffset_ok {l : List Char} {off : Int} {r : List Char}
    (h : parseOffset l = .ok (off, r)) :
    ∃ p c, l = p ++ c :: r ∧ isWs c = false := by
  rcases l with _ | ⟨x, rest⟩
  · exact absurd h (by simp [parseOffset])
  · by_cases hz : x = 'Z' ∨ x = 'z'
    · simp only [parseOffset, if_pos hz, Except.ok.injEq, Prod.mk.injEq] at h
      refine ⟨[], x, by simp [h.2], ?_⟩
      rcases hz with rfl | rfl <;> decide
    · by_cases hp : x = '+'
      · subst hp
        simp only [parseOffset, if_neg hz, reduceIte] at h
        obtain ⟨⟨v, r1⟩, hnum, h⟩ := except_bind_ok h
        dsimp only at h
        have hr1 : r1 = r := by
          by_cases hb : v < 86400
          · rw [if_pos hb] at h
            simp only [Except.ok.injEq, Prod.mk.injEq] at h
            exact h.2
          · rw [if_neg hb] at h
            exact absurd h (by simp)
        obtain ⟨h1, h2, m1, m2, hl, hm2⟩ := parseOffsetNum_ok hnum
        subst hr1
        rw [hl]
        exact ⟨'+' :: h1 :: h2 :: ':' :: [m1], m2, rfl, digit_not_ws hm2⟩
      · by_cases hm : x = '-'
        · subst hm
          simp only [parseOffset, if_neg hz, reduceIte] at h
          obtain ⟨⟨v, r1⟩, hnum, h⟩ := except_bind_ok h
          dsimp only at h
          have hr1 : r1 = r := by
            by_cases hb : v < 86400
            · rw [if_pos hb] at h
              simp only [Except.ok.injEq, Prod.mk.injEq] at h
              exact h.2
            · rw [if_neg hb] at h
              exact absurd h (by simp)
          obtain ⟨h1, h2, m1, m2, hl, hm2⟩ := parseOffsetNum_ok hnum
          subst hr1
          rw [hl]
          exact ⟨'-' :: h1 :: h2 :: ':' :: [m1], m2, rfl, digit_not_ws hm2⟩
        · exact absurd h (by simp [parseOffset, hz, hp, hm])

theorem parse_rfc3339_shape {l : List Char} {dt : DateTimeUtc}
    (h : parse_rfc3339 l = .ok dt) :
    (∃ c cs, l = c :: cs ∧ isWs c = false)
    ∧ (∃ a c, l = a ++ [c] ∧ isWs c = false) := by
  unfold parse_rfc3339 at h
  obtain ⟨⟨y, r1⟩, hp1, h⟩ := except_bind_ok h
  obtain ⟨r2, hp2, h⟩ := except_bind_ok h
  obtain ⟨⟨mo, r3⟩, hp3, h⟩ := except_bind_ok h
  obtain ⟨r4, hp4, h⟩ := except_bind_ok h
  obtain ⟨⟨dy, r5⟩, hp5, h⟩ := except_bind_ok h
  obtain ⟨r6, hp6, h⟩ := except_bind_ok h
  obtain ⟨⟨hh, r7⟩, hp7, h⟩ := except_bind_ok h
  obtain ⟨r8, hp8, h⟩ := except_bind_ok h
  obtain ⟨⟨mi, r9⟩, hp9, h⟩ := except_bind_ok h
  obtain ⟨r10, hp10, h⟩ := except_bind_ok h
  obtain ⟨⟨ss, r11⟩, hp11, h⟩ := except_bind_ok h
  obtain ⟨⟨frac, r12⟩, hp12, h⟩ := except_bind_ok h
  obtain ⟨⟨off, r13⟩, hp13, h⟩ := except_bind_ok h
  dsimp only at h
  have hr13 : r13 = [] := by
    by_contra hne
    rw [if_pos hne] at h
    exact absurd h (by simp)
  subst hr13
  obtain ⟨c1, c2, c3, c4, hl1, hdig⟩ := parse4_ok_decomp hp1
  have hl2 := expectChar_ok hp2
  obtain ⟨a3, b3, hl3, _, _⟩ := parse2_ok_decomp hp3
  have hl4 := expectChar_ok hp4
  obtain ⟨a5, b5, hl5, _, _⟩ := parse2_ok_decomp hp5
  obtain ⟨sep, hl6⟩ := expectSep_ok hp6
  obtain ⟨a7, b7, hl7, _, _⟩ := parse2_ok_decomp hp7
  have hl8 := expectChar_ok hp8
  obtain ⟨a9, b9, hl9, _, _⟩ := parse2_ok_decomp hp9
  have hl10 := expectChar_ok hp10
  obtain ⟨a11, b11, hl11, _, _⟩ := parse2_ok_decomp hp11
  obtain ⟨pf, hl12⟩ := parseFraction_ok hp12
  obtain ⟨po, co, hl13, hco⟩ := parseOffset_ok hp13
  constructor
  · exact ⟨c1, c2 :: c3 :: c4 :: r1, hl1, digit_not_ws hdig⟩
  · refine ⟨c1 :: c2 :: c3 :: c4 :: '-' :: a3 :: b3 :: '-' :: a5 :: b5 :: sep ::
      a7 :: b7 :: ':' :: a9 :: b9 :: ':' :: a11 :: b11 :: (pf ++ po), co, ?_, hco⟩
    rw [hl1, hl2, hl3, hl4, hl5, hl6, hl7, hl8, hl9, hl10, hl11, hl12, hl13]
    simp

/-- C6: every string the RFC 3339 parser accepts in full (date, time, and
a 'Z' or numeric offset) resolves successfully to the parsed
UTC-normalized instant. -/
theorem valid_iso_resolves (s : String) (dt : DateTimeUtc)
    (h : parse_rfc3339 s.toList = .ok dt) :
    get_datetime s = .ok dt := by
  have hshape := parse_rfc3339_shape h
  have htrim : trim s.toList = s.toList := trim_eq_self hshape.1 hshape.2
  have hiso : iso_to_datetime (trim s.toList) = .ok dt := by
    rw [htrim]
    unfold iso_to_datetime
    rw [h]
  exact get_datetime_of_iso_ok hiso

theorem valid_iso_resolves_witness :
    get_datetime "2023-02-16T12:34:56.789Z" = .ok ⟨1676550896, 789000000⟩ :=
  valid_iso_resolves "2023-02-16T12:34:56.789Z" ⟨1676550896, 789000000⟩ (by decide)

/-! ## Formatting digits parse back to their values -/

theorem digitChar_isDigit {k : Nat} (h : k < 10) : (digitChar k).isDigit = true := by
  interval_cases k <;> decide

theorem digVal_digitChar {k : Nat} (h : k < 10) : digVal (digitChar k) = k := by
  interval_cases k <;> decide

theorem digit_decomp4 (n : Nat) (h : n < 10000) :
    n / 1000 % 10 * 1000 + n / 100 % 10 * 100 + n / 10 % 10 * 10 + n % 10 = n := by
  have hdd1 : n / 100 / 10 = n / 1000 := by rw [Nat.div_div_eq_div_mul]
  have hdd2 : n / 10 / 10 = n / 100 := by rw [Nat.div_div_eq_div_mul]
  have h1 := Nat.div_add_mod (n / 100) 10
  have h2 := Nat.div_add_mod (n / 10) 10
  have h3 := Nat.div_add_mod n 10
  rw [hdd1] at h1
  rw [hdd2] at h2
  have h4 : n / 1000 % 10 = n / 1000 := Nat.mod_eq_of_lt (by omega)
  rw [h4]
  omega

theorem digit_decomp2 (n : Nat) (h : n < 100) :
    n / 10 % 10 * 10 + n % 10 = n := by
  have h3 := Nat.div_add_mod n 10
  have h4 : n / 10 % 10 = n / 10 := Nat.mod_eq_of_lt (by omega)
  rw [h4]
  omega

theorem parse2_pad2 {n : Nat} (h : n < 100) (r : List Char) :
    parse2 (pad2 n ++ r) = .ok (n, r) := by
  have e1 : pad2 n ++ r = digitChar (n / 10 % 10) :: digitChar (n % 10) :: r := rfl
  rw [e1]
  simp only [parse2, digitChar_isDigit (Nat.mod_lt _ (by norm_num)),
    digVal_digitChar (Nat.mod_lt _ (by norm_num)), if_true]
  rw [digit_decomp2 n h]

theorem parse4_pad4 {n : Nat} (h : n < 10000) (r : List Char) :
    parse4 (pad4 n ++ r) = .ok (n, r) := by
  have e1 : pad4 n ++ r = digitChar (n / 1000 % 10) :: digitChar (n / 100 % 10) ::
      digitChar (n / 10 % 10) :: digitChar (n % 10) :: r := rfl
  rw [e1]
  simp only [parse4, digitChar_isDigit (Nat.mod_lt _ (by norm_num)),
    digVal_digitChar (Nat.mod_lt _ (by norm_num)), if_true]
  rw [show n / 1000 % 10 * 1000 + n / 100 % 10 * 100 + n / 10 % 10 * 10 + n % 10 = n
    from digit_decomp4 n h]

theorem expectChar_cons (c : Char) (r : List Char) : expectChar c (c :: r) = .ok r := by
  simp [expectChar]

theorem expectSep_T (r : List Char) : expectSep ('T' :: r) = .ok r := by
  simp [expectSep]

theorem valNat_pad3 {ms : Nat} (h : ms < 1000) :
    valNat [digitChar (ms / 100 % 10), digitChar (ms / 10 % 10), digitChar (ms % 10)]
      = ms := by
  simp only [valNat, List.foldl,
    digVal_digitChar (Nat.mod_lt (ms / 100) (show 0 < 10 by norm_num)),
    digVal_digitChar (Nat.mod_lt (ms / 10) (show 0 < 10 by norm_num)),
    digVal_digitChar (Nat.mod_lt ms (show 0 < 10 by norm_num))]
  have h3 := Nat.div_add_mod ms 10
  have h2 := Nat.div_add_mod (ms / 10) 10
  rw [show ms / 10 / 10 = ms / 100 from by rw [Nat.div_div_eq_div_mul]] at h2
  have h4 : ms / 100 % 10 = ms / 100 := Nat.mod_eq_of_lt (by omega)
  rw [h4]
  omega

theorem parseFraction_pad3 {ms : Nat} (h : ms < 1000) (r : List Char)
    (hr : ∀ c cs, r = c :: cs → c.isDigit = false) :
    parseFraction ('.' :: (pad3 ms ++ r)) = .ok (ms * 1000000, r) := by
  have hd1 : (digitChar (ms / 100 % 10)).isDigit = true :=
    digitChar_isDigit (Nat.mod_lt _ (by norm_num))
  have hd2 : (digitChar (ms / 10 % 10)).isDigit = true :=
    digitChar_isDigit (Nat.mod_lt _ (by norm_num))
  have hd3 : (digitChar (ms % 10)).isDigit = true :=
    digitChar_isDigit (Nat.mod_lt _ (by norm_num))
  have e1 : pad3 ms ++ r = digitChar (ms / 100 % 10) :: digitChar (ms / 10 % 10) ::
      digitChar (ms % 10) :: r := rfl
  rw [e1]
  have htake : List.takeWhile Char.isDigit (digitChar (ms / 100 % 10) ::
      digitChar (ms / 10 % 10) :: digitChar (ms % 10) :: r)
      = [digitChar (ms / 100 % 10), digitChar (ms / 10 % 10), digitChar (ms % 10)] := by
    cases r with
    | nil => simp [List.takeWhile_cons, hd1, hd2, hd3]
    | cons c cs => simp [List.takeWhile_cons, hd1, hd2, hd3, hr c cs rfl]
  have hdrop : List.dropWhile Char.isDigit (digitChar (ms / 100 % 10) ::
      digitChar (ms / 10 % 10) :: digitChar (ms % 10) :: r) = r := by
    cases r with
    | nil => simp [List.dropWhile_cons, hd1, hd2, hd3]
    | cons c cs => simp [List.dropWhile_cons, hd1, hd2, hd3, hr c cs rfl]
  simp only [parseFraction, reduceIte, hd1, if_true, htake, hdrop]
  have hval : nanoOfDigits [digitChar (ms / 100 % 10), digitChar (ms / 10 % 10),
      digitChar (ms % 10)] = ms * 1000000 := by
    unfold nanoOfDigits
    rw [show List.take 9 [digitChar (ms / 100 % 10), digitChar (ms / 10 % 10),
      digitChar (ms % 10)] = [digitChar (ms / 100 % 10), digitChar (ms / 10 % 10),
      digitChar (ms % 10)] from rfl, valNat_pad3 h]
    norm_num
  rw [hval]

theorem parseOffset_Z (r : List Char) : parseOffset ('Z' :: r) = .ok (0, r) := by
  simp [parseOffset]

theorem parse_rfc3339_build (Y MO D HH MI SS MS : Nat) (hY : Y < 10000) (hMO : MO < 100)
    (hD : D < 100) (hHH : HH < 100) (hMI : MI < 100) (hSS : SS < 100) (hMS : MS < 1000) :
    parse_rfc3339 (pad4 Y ++ '-' :: pad2 MO ++ '-' :: pad2 D ++ 'T' :: pad2 HH ++ ':' ::
      pad2 MI ++ ':' :: pad2 SS ++ '.' :: pad3 MS ++ ['Z'])
    = if MO < 1 ∨ 12 < MO then .error .outOfRange
      else if D < 1 ∨ days_in_month (Y : Int) (MO : Int) < (D : Int) then .error .outOfRange
      else if 23 < HH then .error .outOfRange
      else if 59 < MI then .error .outOfRange
      else if 60 < SS then .error .outOfRange
      else .ok ⟨days_from_civil (Y : Int) (MO : Int) (D : Int) * 86400
                  + (HH : Int) * 3600 + (MI : Int) * 60
                  + (if SS = 60 then 59 else (SS : Int)) - 0,
                ((MS * 1000000 : Nat) : Int) + (if SS = 60 then 1000000000 else 0)⟩ := by
  have hfr : ∀ (c : Char) (cs : List Char), (['Z'] : List Char) = c :: cs →
      c.isDigit = false := by
    intro c cs h
    cases h
    decide
  simp only [List.cons_append, List.append_assoc, List.nil_append,
    parse_rfc3339, parse4_pad4 hY, expectChar_cons, parse2_pad2 hMO,
    parse2_pad2 hD, expectSep_T, parse2_pad2 hHH, parse2_pad2 hMI, parse2_pad2 hSS,
    parseFraction_pad3 hMS ['Z'] hfr, parseOffset_Z, Bind.bind, Except.bind,
    ne_eq, reduceIte]
  rw [if_neg (by simp)]

/-! ## Well-formedness of resolved instants -/

theorem digVal_le_nine {c : Char} (h : c.isDigit = true) : digVal c ≤ 9 := by
  have h2 : 48 ≤ c.toNat ∧ c.toNat ≤ 57 := by
    simp only [Char.isDigit, ge_iff_le, Bool.and_eq_true, decide_eq_true_eq] at h
    exact ⟨h.1, h.2⟩
  unfold digVal
  omega

theorem valNat_aux_lt : ∀ (ds : List Char) (acc : Nat),
    (∀ c ∈ ds, c.isDigit = true) →
    List.foldl (fun a c => a * 10 + digVal c) acc ds < (acc + 1) * 10 ^ ds.length := by
  intro ds
  induction ds with
  | nil => intro acc _; simp only [List.foldl_nil, List.length_nil, pow_zero, mul_one]; exact Nat.lt_succ_self acc
  | cons c cs ih =>
    intro acc hd
    have hc : digVal c ≤ 9 := digVal_le_nine (hd c (by simp))
    have h1 := ih (acc * 10 + digVal c) (fun x hx => hd x (by simp [hx]))
    have h2 : (acc * 10 + digVal c + 1) * 10 ^ cs.length ≤ (acc + 1) * 10 ^ (c :: cs).length := by
      have : acc * 10 + digVal c + 1 ≤ (acc + 1) * 10 := by omega
      calc (acc * 10 + digVal c + 1) * 10 ^ cs.length
          ≤ (acc + 1) * 10 * 10 ^ cs.length := Nat.mul_le_mul_right _ this
        _ = (acc + 1) * 10 ^ (c :: cs).length := by
            rw [List.length_cons, pow_succ]
            ring
    calc List.foldl (fun a c => a * 10 + digVal c) acc (c :: cs)
        = List.foldl (fun a c => a * 10 + digVal c) (acc * 10 + digVal c) cs := rfl
      _ < (acc * 10 + digVal c + 1) * 10 ^ cs.length := h1
      _ ≤ (acc + 1) * 10 ^ (c :: cs).length := h2

theorem nanoOfDigits_lt {ds : List Char} (h : ∀ c ∈ ds, c.isDigit = true) :
    nanoOfDigits ds < 1000000000 := by
  unfold nanoOfDigits
  have h1 : valNat (ds.take 9) < 10 ^ (ds.take 9).length := by
    have := valNat_aux_lt (ds.take 9) 0 (fun c hc => h c (List.mem_of_mem_take hc))
    simpa [valNat] using this
  have h2 : (ds.take 9).length = min ds.length 9 := by
    simp [List.length_take, Nat.min_comm]
  have h3 : min ds.length 9 ≤ 9 := Nat.min_le_right _ _
  calc valNat (ds.take 9) * 10 ^ (9 - min ds.length 9)
      < 10 ^ (ds.take 9).length * 10 ^ (9 - min ds.length 9) :=
        mul_lt_mul_of_pos_right h1 (by positivity)
    _ = 10 ^ (min ds.length 9 + (9 - min ds.length 9)) := by rw [h2, pow_add]
    _ = 10 ^ 9 := by rw [Nat.add_sub_cancel' h3]
    _ = 1000000000 := by norm_num

theorem parseFraction_lt {l : List Char} {v : Nat} {r : List Char}
    (h : parseFraction l = .ok (v, r)) : v < 1000000000 := by
  rcases l with _ | ⟨x, xs⟩
  · simp only [parseFraction, Except.ok.injEq, Prod.mk.injEq] at h
    omega
  · by_cases hx : x = '.'
    · subst hx
      rcases xs with _ | ⟨c2, rest2⟩
      · exact absurd h (by simp [parseFraction])
      · by_cases hc : c2.isDigit
        · simp [parseFraction, hc] at h
          rw [← h.1]
          refine nanoOfDigits_lt (fun c hc2 => ?_)
          rcases List.mem_cons.mp hc2 with rfl | hmem
          · exact hc
          · exact List.mem_takeWhile_imp hmem
        · exact absurd h (by simp [parseFraction, hc])
    · simp only [parseFraction, if_neg hx, Except.ok.injEq, Prod.mk.injEq] at h
      omega

theorem parseOffset_mul60 {l : List Char} {off : Int} {r : List Char}
    (h : parseOffset l = .ok (off, r)) : ∃ k, off = 60 * k := by
  rcases l with _ | ⟨x, rest⟩
  · exact absurd h (by simp [parseOffset])
  · by_cases hz : x = 'Z' ∨ x = 'z'
    · simp only [parseOffset, if_pos hz, Except.ok.injEq, Prod.mk.injEq] at h
      exact ⟨0, by omega⟩
    · by_cases hp : x = '+'
      · subst hp
        simp only [parseOffset, if_neg hz, reduceIte] at h
        obtain ⟨⟨v, r1⟩, hnum, h⟩ := except_bind_ok h
        dsimp only at h
        unfold parseOffsetNum at hnum
        obtain ⟨⟨hh, q1⟩, _, hnum⟩ := except_bind_ok hnum
        obtain ⟨q2, _, hnum⟩ := except_bind_ok hnum
        obtain ⟨⟨mm, q3⟩, _, hnum⟩ := except_bind_ok hnum
        dsimp only at hnum
        have hv : v = hh * 3600 + mm * 60 := by
          by_cases hb : 60 ≤ mm
          · rw [if_pos hb] at hnum
            exact absurd hnum (by simp)
          · rw [if_neg hb] at hnum
            simp only [Except.ok.injEq, Prod.mk.injEq] at hnum
            exact hnum.1.symm
        have hoff : off = (v : Int) := by
          by_cases hb : v < 86400
          · rw [if_pos hb] at h
            simp only [Except.ok.injEq, Prod.mk.injEq] at h
            exact h.1.symm
          · rw [if_neg hb] at h
            exact absurd h (by simp)
        refine ⟨(hh : Int) * 60 + (mm : Int), ?_⟩
        rw [hoff, hv]
        push_cast
        ring
      · by_cases hm : x = '-'
        · subst hm
          simp only [parseOffset, if_neg hz, reduceIte] at h
          obtain ⟨⟨v, r1⟩, hnum, h⟩ := except_bind_ok h
          dsimp only at h
          unfold parseOffsetNum at hnum
          obtain ⟨⟨hh, q1⟩, _, hnum⟩ := except_bind_ok hnum
          obtain ⟨q2, _, hnum⟩ := except_bind_ok hnum
          obtain ⟨⟨mm, q3⟩, _, hnum⟩ := except_bind_ok hnum
          dsimp only at hnum
          have hv : v = hh * 3600 + mm * 60 := by
            by_cases hb : 60 ≤ mm
            · rw [if_pos hb] at hnum
              exact absurd hnum (by simp)
            · rw [if_neg hb] at hnum
              simp only [Except.ok.injEq, Prod.mk.injEq] at hnum
              exact hnum.1.symm
          have hoff : off = -(v : Int) := by
            by_cases hb : v < 86400
            · rw [if_pos hb] at h
              simp only [Except.ok.injEq, Prod.mk.injEq] at h
              exact h.1.symm
            · rw [if_neg hb] at h
              exact absurd h (by simp)
          refine ⟨-((hh : Int) * 60 + (mm : Int)), ?_⟩
          rw [hoff, hv]
          push_cast
          ring
        · exact absurd h (by simp [parseOffset, hz, hp, hm])

theorem emod60_of_shape (a : Int) : (60 * a + 59).emod 60 = 59 := by
  have := ediv_spec (60 * a + 59) 60 (by norm_num)
  omega

theorem iso_ok_wf {l : List Char} {dt : DateTimeUtc} (h : parse_rfc3339 l = .ok dt) :
    0 ≤ dt.nanos ∧ dt.nanos < 2000000000 ∧
    (1000000000 ≤ dt.nanos → dt.secs.emod 60 = 59) := by
  unfold parse_rfc3339 at h
  obtain ⟨⟨y, r1⟩, hp1, h⟩ := except_bind_ok h
  obtain ⟨r2, hp2, h⟩ := except_bind_ok h
  obtain ⟨⟨mo, r3⟩, hp3, h⟩ := except_bind_ok h
  obtain ⟨r4, hp4, h⟩ := except_bind_ok h
  obtain ⟨⟨dy, r5⟩, hp5, h⟩ := except_bind_ok h
  obtain ⟨r6, hp6, h⟩ := except_bind_ok h
  obtain ⟨⟨hh, r7⟩, hp7, h⟩ := except_bind_ok h
  obtain ⟨r8, hp8, h⟩ := except_bind_ok h
  obtain ⟨⟨mi, r9⟩, hp9, h⟩ := except_bind_ok h
  obtain ⟨r10, hp10, h⟩ := except_bind_ok h
  obtain ⟨⟨ss, r11⟩, hp11, h⟩ := except_bind_ok h
  obtain ⟨⟨frac, r12⟩, hp12, h⟩ := except_bind_ok h
  obtain ⟨⟨off, r13⟩, hp13, h⟩ := except_bind_ok h
  dsimp only at h
  have hfrac : frac < 1000000000 := parseFraction_lt hp12
  obtain ⟨k, hoff⟩ := parseOffset_mul60 hp13
  have hr13 : r13 = [] := by
    by_contra hne
    rw [if_pos hne] at h
    exact absurd h (by simp)
  subst hr13
  rw [if_neg (by simp)] at h
  by_cases c1 : mo < 1 ∨ 12 < mo
  · rw [if_pos c1] at h
    exact absurd h (by simp)
  · rw [if_neg c1] at h
    by_cases c2 : dy < 1 ∨ days_in_month (y : Int) (mo : Int) < (dy : Int)
    · rw [if_pos c2] at h
      exact absurd h (by simp)
    · rw [if_neg c2] at h
      by_cases c3 : 23 < hh
      · rw [if_pos c3] at h
        exact absurd h (by simp)
      · rw [if_neg c3] at h
        by_cases c4 : 59 < mi
        · rw [if_pos c4] at h
          exact absurd h (by simp)
        · rw [if_neg c4] at h
          by_cases c5 : 60 < ss
          · rw [if_pos c5] at h
            exact absurd h (by simp)
          · rw [if_neg c5] at h
            simp only [Except.ok.injEq] at h
            subst h
            refine ⟨?_, ?_, ?_⟩
            · dsimp only
              by_cases hss : ss = 60
              · rw [if_pos hss]
                omega
              · rw [if_neg hss]
                omega
            · dsimp only
              by_cases hss : ss = 60
              · rw [if_pos hss]
                omega
              · rw [if_neg hss]
                omega
            · intro hge
              dsimp only at hge ⊢
              by_cases hss : ss = 60
              · rw [if_pos hss] at hge ⊢
                rw [hoff, show days_from_civil (y : Int) (mo : Int) (dy : Int) * 86400
                    + (hh : Int) * 3600 + (mi : Int) * 60 + 59 - 60 * k
                    = 60 * (days_from_civil (y : Int) (mo : Int) (dy : Int) * 1440
                        + (hh : Int) * 60 + (mi : Int) - k) + 59 from by ring]
                exact emod60_of_shape _
              · rw [if_neg hss] at hge
                omega

theorem epoch_ok_wf {l : List Char} {dt : DateTimeUtc} (h : epoch_to_datetime l = .ok dt) :
    0 ≤ dt.nanos ∧ dt.nanos < 2000000000 ∧
    (1000000000 ≤ dt.nanos → dt.secs.emod 60 = 59) := by
  unfold epoch_to_datetime timestamp_opt timestamp_millis_opt at h
  cases hp : parse_i64 l with
  | error k => rw [hp] at h; exact absurd h (by simp)
  | ok n =>
    rw [hp] at h
    dsimp only at h
    have hch := ediv_spec n 1000 (by norm_num)
    by_cases h1 : MIN_TS ≤ n ∧ n ≤ MAX_TS
    · rw [if_pos h1] at h
      by_cases h3 : yearOfSecs n < 3000
      · simp only [if_pos h3] at h
        simp only [Except.ok.injEq] at h
        subst h
        refine ⟨le_refl 0, by norm_num, fun hge => absurd hge (by norm_num)⟩
      · simp only [if_neg h3] at h
        by_cases h2 : MIN_TS ≤ n.ediv 1000 ∧ n.ediv 1000 ≤ MAX_TS
        · rw [if_pos h2] at h
          simp only [Except.ok.injEq] at h
          subst h
          refine ⟨by dsimp only; omega, by dsimp only; omega, fun hge => ?_⟩
          dsimp only at hge
          omega
        · rw [if_neg h2] at h
          exact absurd h (by simp)
    · rw [if_neg h1] at h
      by_cases h2 : MIN_TS ≤ n.ediv 1000 ∧ n.ediv 1000 ≤ MAX_TS
      · rw [if_pos h2] at h
        simp only [Except.ok.injEq] at h
        subst h
        refine ⟨by dsimp only; omega, by dsimp only; omega, fun hge => ?_⟩
        dsimp only at hge
        omega
      · rw [if_neg h2] at h
        exact absurd h (by simp)

theorem resolve_wf {s : String} {t : DateTimeUtc} (h : get_datetime s = .ok t) :
    0 ≤ t.nanos ∧ t.nanos < 2000000000 ∧
    (1000000000 ≤ t.nanos → t.secs.emod 60 = 59) := by
  unfold get_datetime at h
  dsimp only at h
  cases h1 : iso_to_datetime (trim s.toList) with
  | ok dt =>
    rw [h1] at h
    simp only [Except.ok.injEq] at h
    subst h
    have h2 : parse_rfc3339 (trim s.toList) = .ok dt := by
      unfold iso_to_datetime at h1
      cases hp : parse_rfc3339 (trim s.toList) with
      | ok d2 => rw [hp] at h1; simp only [Except.ok.injEq] at h1; rw [h1]
      | error k => rw [hp] at h1; exact absurd h1 (by simp)
    exact iso_ok_wf h2
  | error e1 =>
    rw [h1] at h
    cases h2 : epoch_to_datetime (trim s.toList) with
    | ok dt =>
      rw [h2] at h
      simp only [Except.ok.injEq] at h
      subst h
      exact epoch_ok_wf h2
    | error e2 =>
      rw [h2] at h
      exact absurd h (by simp)

theorem toList_mk (l : List Char) : (String.mk l).toList = l := rfl

theorem emod_tower_86400 (x : Int) : (x.emod 86400).emod 60 = x.emod 60 := by
  have h1 := ediv_spec x 86400 (by norm_num)
  have h2 := ediv_spec (x.emod 86400) 60 (by norm_num)
  have h3 := ediv_spec x 60 (by norm_num)
  omega

theorem emod_tower_3600 (x : Int) : ((x.emod 86400).emod 3600).emod 60
    = (x.emod 86400).emod 60 := by
  have h1 := ediv_spec (x.emod 86400) 3600 (by norm_num)
  have h2 := ediv_spec ((x.emod 86400).emod 3600) 60 (by norm_num)
  have h3 := ediv_spec (x.emod 86400) 60 (by norm_num)
  omega

theorem days_in_month_le (y m : Int) : days_in_month y m ≤ 31 := by
  unfold days_in_month
  split_ifs <;> omega

set_option maxHeartbeats 1600000 in
theorem parse_format (secs nanos : Int)
    (hn0 : 0 ≤ nanos) (hn2 : nanos < 2000000000)
    (hleap : 1000000000 ≤ nanos → secs.emod 60 = 59)
    (hy0 : 0 ≤ yearOfSecs secs) (hy9 : yearOfSecs secs ≤ 9999) :
    ∃ t2 : DateTimeUtc,
      parse_rfc3339 (to_rfc3339_millis ⟨secs, nanos⟩).toList = .ok t2 ∧
      timestamp_millis t2 = timestamp_millis ⟨secs, nanos⟩ := by
  have crt := civil_rt (secs.ediv 86400)
  have hyv : yearOfSecs secs = (civil_from_days (secs.ediv 86400)).1 := rfl
  rw [hyv] at hy0 hy9
  have hsc := ediv_spec secs 86400 (by norm_num)
  have hsod3600 := ediv_spec (secs.emod 86400) 3600 (by norm_num)
  have hsod60 := ediv_spec (secs.emod 86400) 60 (by norm_num)
  have hrem60 := ediv_spec ((secs.emod 86400).emod 3600) 60 (by norm_num)
  have htow1 := emod_tower_86400 secs
  have htow2 := emod_tower_3600 secs
  have hdim := days_in_month_le (civil_from_days (secs.ediv 86400)).1
    (civil_from_days (secs.ediv 86400)).2.1
  unfold to_rfc3339_millis
  dsimp only
  rw [if_pos (And.intro hy0 hy9)]
  rw [toList_mk]
  by_cases hli : 1000000000 ≤ nanos
  · -- leap second branch
    have hss59 : (secs.emod 86400).emod 60 = 59 := by rw [htow1]; exact hleap hli
    simp only [if_pos hli]
    have hsub := ediv_spec (nanos - 1000000000) 1000000 (by norm_num)
    have hnv := ediv_spec nanos 1000000 (by norm_num)
    have hY : (civil_from_days (secs.ediv 86400)).1.toNat < 10000 := by omega
    have hMO : (civil_from_days (secs.ediv 86400)).2.1.toNat < 100 := by omega
    have hD : (civil_from_days (secs.ediv 86400)).2.2.toNat < 100 := by omega
    have hHH : ((secs.emod 86400).ediv 3600).toNat < 100 := by omega
    have hMI : (((secs.emod 86400).emod 3600).ediv 60).toNat < 100 := by omega
    have hSS : ((secs.emod 86400).emod 60 + 1).toNat < 100 := by omega
    have hMS : ((nanos - 1000000000).ediv 1000000).toNat < 1000 := by omega
    rw [parse_rfc3339_build _ _ _ _ _ _ _ hY hMO hD hHH hMI hSS hMS]
    rw [if_neg (by omega)]
    rw [if_neg (by
      push_neg
      constructor
      · omega
      · rw [Int.toNat_of_nonneg (by omega), Int.toNat_of_nonneg (by omega),
          Int.toNat_of_nonneg (by omega)]
        omega)]
    rw [if_neg (by omega), if_neg (by omega), if_neg (by omega)]
    refine ⟨_, rfl, ?_⟩
    have hSSval : ((secs.emod 86400).emod 60 + 1).toNat = 60 := by omega
    rw [hSSval]
    simp only [reduceIte]
    rw [Int.toNat_of_nonneg (show (0:Int) ≤ (civil_from_days (secs.ediv 86400)).1 from hy0),
        Int.toNat_of_nonneg (show (0:Int) ≤ (civil_from_days (secs.ediv 86400)).2.1 from by omega),
        Int.toNat_of_nonneg (show (0:Int) ≤ (civil_from_days (secs.ediv 86400)).2.2 from by omega),
        Int.toNat_of_nonneg (show (0:Int) ≤ (secs.emod 86400).ediv 3600 from by omega),
        Int.toNat_of_nonneg (show (0:Int) ≤ ((secs.emod 86400).emod 3600).ediv 60 from by omega)]
    rw [show ((((nanos - 1000000000).ediv 1000000).toNat * 1000000 : Nat) : Int)
        = (nanos - 1000000000).ediv 1000000 * 1000000 from by
      push_cast [Int.toNat_of_nonneg
        (show (0:Int) ≤ (nanos - 1000000000).ediv 1000000 from by omega)]
      ring]
    rw [crt.2.2.2.2]
    unfold timestamp_millis
    dsimp only
    have hch2 := ediv_spec ((nanos - 1000000000).ediv 1000000 * 1000000 + 1000000000)
      1000000 (by norm_num)
    omega
  · -- no leap second
    simp only [if_neg hli]
    have hnv := ediv_spec nanos 1000000 (by norm_num)
    have hY : (civil_from_days (secs.ediv 86400)).1.toNat < 10000 := by omega
    have hMO : (civil_from_days (secs.ediv 86400)).2.1.toNat < 100 := by omega
    have hD : (civil_from_days (secs.ediv 86400)).2.2.toNat < 100 := by omega
    have hHH : ((secs.emod 86400).ediv 3600).toNat < 100 := by omega
    have hMI : (((secs.emod 86400).emod 3600).ediv 60).toNat < 100 := by omega
    have hSS : ((secs.emod 86400).emod 60).toNat < 100 := by omega
    have hMS : (nanos.ediv 1000000).toNat < 1000 := by omega
    rw [parse_rfc3339_build _ _ _ _ _ _ _ hY hMO hD hHH hMI hSS hMS]
    rw [if_neg (by omega)]
    rw [if_neg (by
      push_neg
      constructor
      · omega
      · rw [Int.toNat_of_nonneg (by omega), Int.toNat_of_nonneg (by omega),
          Int.toNat_of_nonneg (by omega)]
        omega)]
    rw [if_neg (by omega), if_neg (by omega), if_neg (by omega)]
    refine ⟨_, rfl, ?_⟩
    rw [if_neg (show ¬((secs.emod 86400).emod 60).toNat = 60 from by omega),
        if_neg (show ¬((secs.emod 86400).emod 60).toNat = 60 from by omega)]
    rw [Int.toNat_of_nonneg (show (0:Int) ≤ (civil_from_days (secs.ediv 86400)).1 from hy0),
        Int.toNat_of_nonneg (show (0:Int) ≤ (civil_from_days (secs.ediv 86400)).2.1 from by omega),
        Int.toNat_of_nonneg (show (0:Int) ≤ (civil_from_days (secs.ediv 86400)).2.2 from by omega),
        Int.toNat_of_nonneg (show (0:Int) ≤ (secs.emod 86400).ediv 3600 from by omega),
        Int.toNat_of_nonneg (show (0:Int) ≤ ((secs.emod 86400).emod 3600).ediv 60 from by omega),
        Int.toNat_of_nonneg (show (0:Int) ≤ (secs.emod 86400).emod 60 from by omega)]
    rw [show (((nanos.ediv 1000000).toNat * 1000000 : Nat) : Int)
        = nanos.ediv 1000000 * 1000000 from by
      push_cast [Int.toNat_of_nonneg (show (0:Int) ≤ nanos.ediv 1000000 from by omega)]
      ring]
    rw [crt.2.2.2.2]
    unfold timestamp_millis
    dsimp only
    have hch2 := ediv_spec (nanos.ediv 1000000 * 1000000 + 0) 1000000 (by norm_num)
    omega

/-- C7 (corrected): the round trip at millisecond precision holds for every
resolved instant whose proleptic-Gregorian calendar year lies in 0..9999:
formatting such an instant in the ISO 8601 millisecond form with a 'Z'
suffix and resolving the result again succeeds with the same
epoch-millisecond value.  Outside that range the claim fails: chrono
formats the year with an explicit sign and five or more digits, which the
RFC 3339 parser rejects (see the counterexample). -/
theorem roundtrip_within_four_digit_years (s : String) (t : DateTimeUtc)
    (h : get_datetime s = .ok t)
    (hy0 : 0 ≤ yearOfSecs t.secs) (hy9 : yearOfSecs t.secs ≤ 9999) :
    ∃ t2 : DateTimeUtc,
      get_datetime (to_rfc3339_millis t) = .ok t2 ∧
      timestamp_millis t2 = timestamp_millis t := by
  obtain ⟨hn0, hn2, hleap⟩ := resolve_wf h
  obtain ⟨t2, hp0, hm⟩ := parse_format t.secs t.nanos hn0 hn2 hleap hy0 hy9
  have hp : parse_rfc3339 (to_rfc3339_millis t).toList = .ok t2 := hp0
  refine ⟨t2, ?_, hm⟩
  have hshape := parse_rfc3339_shape hp
  have htrim : trim (to_rfc3339_millis t).toList = (to_rfc3339_millis t).toList :=
    trim_eq_self hshape.1 hshape.2
  have hiso : iso_to_datetime (trim (to_rfc3339_millis t).toList) = .ok t2 := by
    rw [htrim]
    unfold iso_to_datetime
    rw [hp]
  exact get_datetime_of_iso_ok hiso

theorem roundtrip_within_four_digit_years_witness :
    ∃ t2 : DateTimeUtc,
      get_datetime (to_rfc3339_millis ⟨1676550896, 789000000⟩) = .ok t2 ∧
      timestamp_millis t2 = timestamp_millis ⟨1676550896, 789000000⟩ :=
  roundtrip_within_four_digit_years "2023-02-16T12:34:56.789Z"
    ⟨1676550896, 789000000⟩ (by decide) (by decide) (by decide)

/-- C7 counterexample to the unrestricted round-trip claim: the numeric
input 253402300800000 resolves (as epoch milliseconds) to the first
instant of year 10000; chrono formats it as "+10000-01-01T00:00:00.000Z",
and resolving that string fails: the RFC 3339 parser demands exactly four
year digits, and the string is not an integer either. -/
theorem roundtrip_fails_beyond_year_9999 :
    get_datetime "253402300800000" = .ok ⟨253402300800, 0⟩ ∧
    to_rfc3339_millis ⟨253402300800, 0⟩ = "+10000-01-01T00:00:00.000Z" ∧
    get_datetime "+10000-01-01T00:00:00.000Z" =
      .error (.MultipleErrors (.DateFormatError .invalid)
        (.NumberFormatError .invalidDigit)) := by
  exact ⟨by decide, by decide, by decide⟩
